import Mathlib

/-!
# Shallow embedding of `gluten`'s Velox shuffle writer and `sparkToDateTime`

Sources embedded here:

* `cpp/velox/shuffle/VeloxShuffleWriter.h`: `splitFixedType`, `rawPartitionBytes`
* `cpp-ch/local-engine/Functions/SparkFunctionToDateTime.h`:
  `checkDateTimeFormat`, `executeInternal`, `executeImpl`

Conventions.

* `std::vector<uint32_t>` is a `List Nat`.  The only arithmetic `splitFixedType` performs on
  these values is `pid + 1`, `++pid` and `++pos`, each guarded by `pid < numPartitions_`
  respectively `pos < end`, so no 32-bit wrap-around can occur and `Nat` is exact.
* An access through an index that is out of range is undefined behaviour in C++; every
  embedded function that indexes returns `Option` and yields `none` on such an access.
* A `uint8_t*` into a partition buffer is a `BytePtr`: the entry of `dstAddrs` it was derived
  from plus a byte offset; `reinterpret_cast<T*>` turns the byte offset into an element index
  by dividing by `sizeof(T)`.
-/

namespace gluten

/-! ## `VeloxShuffleWriter::splitFixedType` -/

/-- A `uint8_t*` pointing into a destination buffer: `dstAddrs[buf] + off`. -/
structure BytePtr where
  buf : Nat
  off : Nat
deriving DecidableEq, Repr

/-- Result code `arrow::Status`; `splitFixedType` only ever produces `OK`. -/
inductive Status where
  | OK
  | Invalid
deriving DecidableEq, Repr

/-- One execution of the statement `*dstPidBase++ = reinterpret_cast<const T*>(srcAddr)[rowId]`,
recorded with the values of the loop variables at that moment (ghost data). -/
structure WriteEvent where
  pid : Nat
  pos : Nat
  rowId : Nat
  dstBuf : Nat
  dstIdx : Nat
deriving DecidableEq, Repr

/-- The members of `VeloxShuffleWriter` that `splitFixedType` touches. -/
structure VeloxShuffleWriter where
  numPartitions_ : Nat
  partition2RowOffset_ : List Nat
  rowOffset2RowId_ : List Nat
  partitionBufferIdxBase_ : List Nat
  partitionBufferIdxOffset_ : List BytePtr
deriving DecidableEq, Repr

/-- Everything observable after a call of `splitFixedType`. -/
structure SplitResult (T : Type) where
  status : Status
  writer : VeloxShuffleWriter
  srcAddr : List T
  dstAddrs : List (List T)
  writes : List WriteEvent

/-- The call `std::transform(dstAddrs.begin(), dstAddrs.end(), partitionBufferIdxBase_.begin(),
partitionBufferIdxOffset_.begin(), [](uint8_t* x, uint32_t y) { return x + y * sizeof(T); })`:
`n` elements are still to be processed, `i` is the current one. -/
def transformOffsets (sizeofT : Nat) (base : List Nat) :
    Nat → Nat → List BytePtr → Option (List BytePtr)
  | 0, _, out => some out
  | n + 1, i, out =>
    match base[i]? with
    | none => none
    | some y =>
      if i < out.length then
        transformOffsets sizeofT base n (i + 1) (out.set i ⟨i, y * sizeofT⟩)
      else none

/-- The inner loop `for (; pos < end; ++pos) { rowId = rowOffset2RowId_[pos];
*dstPidBase++ = src[rowId]; }` with `n = end - pos` iterations left and `p` the current
value of `dstPidBase`. -/
def copyRun {T : Type} (sizeofT : Nat) (srcAddr : List T) (rowOffset2RowId_ : List Nat)
    (pid : Nat) : Nat → Nat → BytePtr → List (List T) → Option (List (List T) × List WriteEvent)
  | 0, _, _, mem => some (mem, [])
  | n + 1, pos, p, mem =>
    match rowOffset2RowId_[pos]? with
    | none => none
    | some rowId =>
      match srcAddr[rowId]? with
      | none => none
      | some v =>
        match mem[p.buf]? with
        | none => none
        | some b =>
          if p.off / sizeofT < b.length then
            match copyRun sizeofT srcAddr rowOffset2RowId_ pid n (pos + 1)
                ⟨p.buf, p.off + sizeofT⟩ (mem.set p.buf (b.set (p.off / sizeofT) v)) with
            | none => none
            | some (mem2, evs) => some (mem2, ⟨pid, pos, rowId, p.buf, p.off / sizeofT⟩ :: evs)
          else none

/-- The outer loop `for (uint32_t pid = 0; pid < numPartitions_; ++pid)` with `n` iterations
left; `offs` is `partitionBufferIdxOffset_` as left by the transform. -/
def splitPartitions {T : Type} (sizeofT : Nat) (srcAddr : List T)
    (partition2RowOffset_ rowOffset2RowId_ : List Nat) (offs : List BytePtr) :
    Nat → Nat → List (List T) → Option (List (List T) × List WriteEvent)
  | 0, _, mem => some (mem, [])
  | n + 1, pid, mem =>
    match offs[pid]?, partition2RowOffset_[pid]?, partition2RowOffset_[pid + 1]? with
    | some dstPidBase, some pos, some end_ =>
      match copyRun sizeofT srcAddr rowOffset2RowId_ pid (end_ - pos) pos dstPidBase mem with
      | none => none
      | some (mem1, evs1) =>
        match splitPartitions sizeofT srcAddr partition2RowOffset_ rowOffset2RowId_ offs
            n (pid + 1) mem1 with
        | none => none
        | some (mem2, evs2) => some (mem2, evs1 ++ evs2)
    | _, _, _ => none

/-- `template <typename T> arrow::Status splitFixedType(const uint8_t* srcAddr,
const std::vector<uint8_t*>& dstAddrs)`.  `srcAddr` is the source column viewed as an array
of `T`, `dstAddrs` the destination buffers viewed as arrays of `T`. -/
def splitFixedType {T : Type} (sizeofT : Nat) (w : VeloxShuffleWriter) (srcAddr : List T)
    (dstAddrs : List (List T)) : Option (SplitResult T) :=
  match transformOffsets sizeofT w.partitionBufferIdxBase_ dstAddrs.length 0
      w.partitionBufferIdxOffset_ with
  | none => none
  | some offs =>
    match splitPartitions sizeofT srcAddr w.partition2RowOffset_ w.rowOffset2RowId_ offs
        w.numPartitions_ 0 dstAddrs with
    | none => none
    | some (mem, evs) =>
      some ⟨Status.OK, { w with partitionBufferIdxOffset_ := offs }, srcAddr, mem, evs⟩

/-- Destination element `dstAddrs[b][i]`, when it exists. -/
def slot {T : Type} (dstAddrs : List (List T)) (b i : Nat) : Option T :=
  (dstAddrs.getD b [])[i]?

/-- Length `partition2RowOffset_[pid + 1] - partition2RowOffset_[pid]` of the run of `pid`
(zero when the end offset lies below the start offset: the inner loop then does not run). -/
def runLength (w : VeloxShuffleWriter) (pid : Nat) : Nat :=
  w.partition2RowOffset_.getD (pid + 1) 0 - w.partition2RowOffset_.getD pid 0

/-- The write events of the run of partition `pid`, in closed form. -/
def runEvents (w : VeloxShuffleWriter) (pid : Nat) : List WriteEvent :=
  (List.range (runLength w pid)).map fun k =>
    ⟨pid, w.partition2RowOffset_.getD pid 0 + k,
      w.rowOffset2RowId_.getD (w.partition2RowOffset_.getD pid 0 + k) 0,
      pid, w.partitionBufferIdxBase_.getD pid 0 + k⟩

/-- The write events of a whole call, in closed form. -/
def allEvents (w : VeloxShuffleWriter) : List WriteEvent :=
  (List.range w.numPartitions_).flatMap (runEvents w)

/-- The sizes and bounds under which every access of `splitFixedType` is in range. -/
structure InRange {T : Type} (w : VeloxShuffleWriter) (srcAddr : List T)
    (dstAddrs : List (List T)) : Prop where
  dst_size : dstAddrs.length = w.numPartitions_
  base_size : w.partitionBufferIdxBase_.length = w.numPartitions_
  offset_size : w.partitionBufferIdxOffset_.length = w.numPartitions_
  p2r_size : w.partition2RowOffset_.length = w.numPartitions_ + 1
  p2r_le : ∀ o ∈ w.partition2RowOffset_, o ≤ w.rowOffset2RowId_.length
  rowId_lt : ∀ r ∈ w.rowOffset2RowId_, r < srcAddr.length
  capacity : ∀ pid, pid < w.numPartitions_ →
    w.partitionBufferIdxBase_.getD pid 0 + runLength w pid ≤ (dstAddrs.getD pid []).length

/-- A well-formed RowOffsetIndex for a batch of `rowNum` rows. -/
structure WellFormedIndex (w : VeloxShuffleWriter) (rowNum : Nat) : Prop where
  first : w.partition2RowOffset_.getD 0 0 = 0
  mono : ∀ pid, pid < w.numPartitions_ →
    w.partition2RowOffset_.getD pid 0 ≤ w.partition2RowOffset_.getD (pid + 1) 0
  last : w.partition2RowOffset_.getD w.numPartitions_ 0 = rowNum
  perm : List.Perm w.rowOffset2RowId_ (List.range rowNum)

/-- A small writer state: two partitions, three rows, partition 0 already holds one row. -/
def exampleWriter : VeloxShuffleWriter :=
  ⟨2, [0, 2, 3], [2, 0, 1], [1, 0], [⟨7, 7⟩, ⟨7, 7⟩]⟩

/-- A source column of three values. -/
def exampleSrc : List Nat := [10, 11, 12]

/-- Destination buffers of capacity 4 and 2 rows. -/
def exampleDst : List (List Nat) := [[5, 0, 0, 0], [0, 0]]

/-! ## `VeloxShuffleWriter::rawPartitionBytes` -/

/-- Value of a mathematical integer stored in an `int64_t` (two's complement). -/
def wrapInt64 (z : Int) : Int := (z + 2 ^ 63) % 2 ^ 64 - 2 ^ 63

/-- `std::accumulate(first, last, init)` on `long long`: `init = init + *first` per element.
Signed overflow, undefined in C++, is taken as two's-complement wrap-around. -/
def accumulate : List Int → Int → Int
  | [], init => init
  | x :: rest, init => accumulate rest (wrapInt64 (init + x))

/-- `int64_t rawPartitionBytes() const`, with the member `rawPartitionLengths_` of the base
class (a `std::vector<int64_t>`) passed in. -/
def rawPartitionBytes (rawPartitionLengths_ : List Int) : Int :=
  accumulate rawPartitionLengths_ 0

/-! ## `SparkFunctionConvertToDateTime` -/

/-- ClickHouse `isNumericASCII(char c)`: `c >= '0' && c <= '9'`. -/
def isNumericASCII (c : Char) : Bool := decide ('0' ≤ c) && decide (c ≤ '9')

/-- Short-circuit `&&` of two checks that may read out of range: the right operand is only
evaluated (and can only fault) when the left one is `true`. -/
def andThen (a b : Option Bool) : Option Bool :=
  match a with
  | none => none
  | some false => some false
  | some true => b

/-- The lambda `checkNumbericASCII(rb, start, length)`: `n` characters from `rb.position() +
start` on are still to be inspected. -/
def checkNumbericASCII (rb : List Char) : Nat → Nat → Option Bool
  | _, 0 => some true
  | start, n + 1 =>
    match rb[start]? with
    | none => none
    | some c => if !isNumericASCII c then some false else checkNumbericASCII rb (start + 1) n

/-- The lambda `checkDelimiter(rb, pos, delim)`. -/
def checkDelimiter (rb : List Char) (pos : Nat) (delim : Char) : Option Bool :=
  match rb[pos]? with
  | none => none
  | some c => if c ≠ delim then some false else some true

/-- The final loop `for (size_t i = 20; i < buf_size; ++i) if (!isNumericASCII(*(buf.position()
+ i))) return false;` followed by `return true`, with `n` iterations left. -/
def checkFraction (buf : List Char) : Nat → Nat → Option Bool
  | 0, _ => some true
  | n + 1, i =>
    match buf[i]? with
    | none => none
    | some c => if !isNumericASCII c then some false else checkFraction buf n (i + 1)

/-- `bool checkDateTimeFormat(DB::ReadBuffer & buf, size_t buf_size, UInt8 & can_be_parsed)`.
`buf` is the list of bytes from `buf.position()` to the end of the buffer; the result is the
returned flag together with the final value of `can_be_parsed`. -/
def checkDateTimeFormat (buf : List Char) (buf_size : Nat) (can_be_parsed : Nat) :
    Option (Bool × Nat) :=
  match andThen (some (buf_size == 10 || buf_size == 11))
      (andThen (checkNumbericASCII buf 0 4) (andThen (checkDelimiter buf 4 '-')
      (andThen (checkNumbericASCII buf 5 2) (andThen (checkDelimiter buf 7 '-')
      (checkNumbericASCII buf 8 2))))) with
  | none => none
  | some true =>
    if buf_size == 10 then some (true, can_be_parsed)
    else
      match buf[10]? with
      | none => none
      | some c => if c ≠ ' ' then some (false, 0) else some (false, can_be_parsed)
  | some false =>
    match andThen (some (buf_size == 19 || buf_size == 20))
        (andThen (checkNumbericASCII buf 0 4) (andThen (checkDelimiter buf 4 '-')
        (andThen (checkNumbericASCII buf 5 2) (andThen (checkDelimiter buf 7 '-')
        (andThen (checkNumbericASCII buf 8 2) (andThen (checkDelimiter buf 10 ' ')
        (andThen (checkNumbericASCII buf 11 2) (andThen (checkDelimiter buf 13 ':')
        (andThen (checkNumbericASCII buf 14 2) (andThen (checkDelimiter buf 16 ':')
        (checkNumbericASCII buf 17 2))))))))))) with
    | none => none
    | some true =>
      if buf_size == 19 then some (true, can_be_parsed)
      else
        match buf[19]? with
        | none => none
        | some c => some (c == '.', can_be_parsed)
    | some false =>
      match (if buf_size < 4 then some true
             else (buf[buf_size - 1]?).map (fun c => !isNumericASCII c)) with
      | none => none
      | some true => some (false, 0)
      | some false =>
        if buf_size < 19 then some (false, can_be_parsed)
        else if buf_size > 20 then
          (checkFraction buf (buf_size - 20) 20).map (fun r => (r, can_be_parsed))
        else some (true, can_be_parsed)

/-- The loop `while (!buf.eof() && *buf.position() == ' ') buf.position()++`; the result is
the part of the buffer from the new position on. -/
def skipSpaces : List Char → List Char
  | [] => []
  | c :: rest => if c = ' ' then skipSpaces rest else c :: rest

/-- Which of the three branches of the loop body of `executeInternal` a row takes, with the
buffer (from its current position) that is handed to the parser. -/
inductive RowAction where
  | strict (buf : List Char)
  | null
  | bestEffort (buf : List Char)
deriving DecidableEq, Repr

/-- The error codes declared `extern` at the top of the file. -/
inductive ErrorCodes where
  | ILLEGAL_TYPE_OF_ARGUMENT
  | NUMBER_OF_ARGUMENTS_DOESNT_MATCH
  | ILLEGAL_COLUMN
deriving DecidableEq, Repr

/-- A `DB::Exception` that leaves a function: thrown by this file with one of its error codes,
or thrown inside one of the ClickHouse parsers and not caught (with the code the parser gave
it). -/
inductive Thrown where
  | code (c : ErrorCodes)
  | parser (code : Nat)
deriving DecidableEq, Repr

/-- The two ClickHouse parsers called by `executeInternal`.  Their code is not part of this
repository; they are parameters.  Both are the `void` variants, which report text they cannot
parse by throwing: from scale and remaining bytes they yield the `DateTime64` they store, or
the code of the exception they throw. -/
structure Parsers where
  readDateTime64Text : Nat → List Char → Except Nat Int
  parseDateTime64BestEffort : Nat → List Char → Except Nat Int

/-- Branch selection in the loop body of `executeInternal` for one row `data`. -/
def selectAction (data : List Char) : Option RowAction :=
  let buf := skipSpaces data
  match checkDateTimeFormat buf buf.length 1 with
  | none => none
  | some (ok, can_be_parsed) =>
    if ok && can_be_parsed != 0 then some (RowAction.strict buf)
    else if can_be_parsed == 0 then some RowAction.null
    else some (RowAction.bestEffort buf)

/-- The pair `(dst_data[i], null_map_data[i])` stored by the selected branch, or the
exception with which the parser of that branch leaves. -/
def rowOutput (P : Parsers) (scale : Nat) : RowAction → Except Thrown (Int × Nat)
  | RowAction.strict buf =>
    match P.readDateTime64Text scale buf with
    | Except.ok v => Except.ok (v, 0)
    | Except.error c => Except.error (Thrown.parser c)
  | RowAction.null => Except.ok (0, 1)
  | RowAction.bestEffort buf =>
    match P.parseDateTime64BestEffort scale buf with
    | Except.ok v => Except.ok (v, 0)
    | Except.error c => Except.error (Thrown.parser c)

/-- The loop `for (size_t i = 0; i < src->size(); ++i)` of `executeInternal`, with `n`
iterations left.  `dst_data[i]` is bound before the parser runs and `null_map_data[i]` is
assigned after it returned; an exception of the parser ends the loop, there is no handler. -/
def executeRows (P : Parsers) (src : List (List Char)) (scale : Nat) :
    Nat → Nat → List Int → List Nat → Option (Except Thrown (List Int × List Nat))
  | 0, _, dst_data, null_map_data => some (Except.ok (dst_data, null_map_data))
  | n + 1, i, dst_data, null_map_data =>
    match src[i]? with
    | none => none
    | some data =>
      match selectAction data with
      | none => none
      | some act =>
        if i < dst_data.length then
          match rowOutput P scale act with
          | Except.error e => some (Except.error e)
          | Except.ok out =>
            if i < null_map_data.length then
              executeRows P src scale n (i + 1) (dst_data.set i out.1)
                (null_map_data.set i out.2)
            else none
        else none

/-- `void executeInternal(const ColumnPtr & src, const UInt32 & scale,
PaddedPODArray<DateTime64> & dst_data, PaddedPODArray<UInt8> & null_map_data)`: the two
arrays as they are when the function returns, or the exception with which it leaves. -/
def executeInternal (P : Parsers) (src : List (List Char)) (scale : Nat)
    (dst_data : List Int) (null_map_data : List Nat) :
    Option (Except Thrown (List Int × List Nat)) :=
  executeRows P src scale src.length 0 dst_data null_map_data

/-- No parser throws on a row of the column: every row's selected branch yields a pair to
store. -/
def parsesAll (P : Parsers) (scale : Nat) (src : List (List Char)) : Prop :=
  ∀ data ∈ src, ∀ act, selectAction data = some act →
    ∃ out, rowOutput P scale act = Except.ok out

/-! ### The date and date-time shapes named in the properties -/

/-- `matchesShape shape s`: `s` starts with the shape, where a `d` in the shape stands for an
ASCII digit and every other character for itself. -/
def matchesShape : List Char → List Char → Bool
  | [], _ => true
  | _ :: _, [] => false
  | p :: ps, c :: cs => (if p = 'd' then isNumericASCII c else c == p) && matchesShape ps cs

/-- The shape `dddd-dd-dd`. -/
def dateShape : List Char := ['d', 'd', 'd', 'd', '-', 'd', 'd', '-', 'd', 'd']

/-- The shape `dddd-dd-dd dd:dd:dd`. -/
def dateTimeShape : List Char :=
  ['d', 'd', 'd', 'd', '-', 'd', 'd', '-', 'd', 'd', ' ',
   'd', 'd', ':', 'd', 'd', ':', 'd', 'd']

/-- `s` starts with `dddd-dd-dd`. -/
def startsWithDate (s : List Char) : Bool := matchesShape dateShape s

/-- `s` starts with `dddd-dd-dd dd:dd:dd`. -/
def startsWithDateTime (s : List Char) : Bool := matchesShape dateTimeShape s

/-- The text is empty or a `.` followed only by ASCII digits. -/
def fractionOrEmpty : List Char → Bool
  | [] => true
  | c :: rest => c == '.' && rest.all isNumericASCII

/-- Well-formed date/time text: exactly a 10-character date, or the 19-character date-time
followed by nothing or by a `.` and ASCII digits only. -/
def wellFormedText (s : List Char) : Bool :=
  (s.length == 10 && startsWithDate s) ||
  (startsWithDateTime s && fractionOrEmpty (s.drop 19))

/-- The condition under which a row becomes NULL, for `s` the row without its leading
spaces. -/
def nullRule (s : List Char) : Prop :=
  (s.length = 11 ∧ startsWithDate s = true ∧ s[10]? ≠ some ' ') ∨
  (¬ ((s.length = 10 ∨ s.length = 11) ∧ startsWithDate s = true) ∧
   ¬ ((s.length = 19 ∨ s.length = 20) ∧ startsWithDateTime s = true) ∧
   (s.length < 4 ∨ (s[s.length - 1]?).map isNumericASCII = some false))

/-- The 19 bytes `aaaaaaaaaaaaaaaaaa1`: no date-time layout, last byte a digit. -/
def malformed19 : List Char :=
  ['a', 'a', 'a', 'a', 'a', 'a', 'a', 'a', 'a', 'a', 'a', 'a', 'a', 'a', 'a', 'a', 'a', 'a', '1']

/-- The 22 bytes `not a date-time at  07` (two spaces before `07`): no date-time layout,
bytes 20 and 21 digits. -/
def malformed22 : List Char :=
  ['n', 'o', 't', ' ', 'a', ' ', 'd', 'a', 't', 'e', '-', 't', 'i', 'm', 'e', ' ', 'a', 't',
   ' ', ' ', '0', '7']

/-- The bytes `2023-05-17 08:30:00.25`. -/
def canonicalExample : List Char :=
  ['2', '0', '2', '3', '-', '0', '5', '-', '1', '7', ' ', '0', '8', ':', '3', '0', ':', '0',
   '0', '.', '2', '5']

/-- Stand-in parsers for evaluating examples: the strict one yields 1, the other 2. -/
def exampleParsers : Parsers := ⟨fun _ _ => Except.ok 1, fun _ _ => Except.ok 2⟩

theorem transformOffsets_spec (sizeofT : Nat) (base : List Nat) :
    ∀ (n i : Nat) (out : List BytePtr), i + n ≤ base.length → i + n ≤ out.length →
      ∃ offs, transformOffsets sizeofT base n i out = some offs ∧
        offs.length = out.length ∧
        (∀ j, i ≤ j → j < i + n → offs[j]? = some ⟨j, base.getD j 0 * sizeofT⟩) ∧
        (∀ j, j < i → offs[j]? = out[j]?) := by
  intro n
  induction n with
  | zero =>
    intro i out _ _
    exact ⟨out, rfl, rfl, fun j h1 h2 => by omega, fun _ _ => rfl⟩
  | succ n ih =>
    intro i out hb ho
    have hib : i < base.length := by omega
    have hio : i < out.length := by omega
    obtain ⟨offs, h1, h2, h3, h4⟩ := ih (i + 1) (out.set i ⟨i, base[i] * sizeofT⟩)
      (by omega) (by simp; omega)
    refine ⟨offs, ?_, ?_, ?_, ?_⟩
    · simp [transformOffsets, List.getElem?_eq_getElem hib, hio, h1]
    · simpa using h2
    · intro j hj1 hj2
      by_cases hji : j = i
      · subst hji
        rw [h4 j (by omega)]
        simp [List.getElem?_set, hio, List.getElem?_eq_getElem hib]
      · exact h3 j (by omega) (by omega)
    · intro j hj
      rw [h4 j (by omega)]
      simp [List.getElem?_set]
      omega

theorem getD_set_self {T : Type} (mem : List (List T)) (b : Nat) (x : List T)
    (hb : b < mem.length) : (mem.set b x).getD b [] = x := by
  simp [List.getD_eq_getElem?_getD, List.getElem?_set, hb]

theorem getD_set_other {T : Type} (mem : List (List T)) (b c : Nat) (x : List T)
    (hc : c ≠ b) : (mem.set b x).getD c [] = mem.getD c [] := by
  simp [List.getD_eq_getElem?_getD, List.getElem?_set, Ne.symm hc]

theorem copyRun_spec {T : Type} (sizeofT : Nat) (hT : 0 < sizeofT) (src : List T)
    (r2id : List Nat) (pid b : Nat) (hr : ∀ r ∈ r2id, r < src.length) :
    ∀ (n pos e : Nat) (mem : List (List T)), pos + n ≤ r2id.length → b < mem.length →
      e + n ≤ (mem.getD b []).length →
      ∃ mem2, copyRun sizeofT src r2id pid n pos ⟨b, e * sizeofT⟩ mem =
          some (mem2, (List.range n).map fun k =>
            (⟨pid, pos + k, r2id.getD (pos + k) 0, b, e + k⟩ : WriteEvent)) ∧
        mem2.length = mem.length ∧
        (∀ c, c ≠ b → mem2.getD c [] = mem.getD c []) ∧
        (mem2.getD b []).length = (mem.getD b []).length ∧
        (∀ i, i < e ∨ e + n ≤ i → slot mem2 b i = slot mem b i) ∧
        (∀ k, k < n → slot mem2 b (e + k) = src[r2id.getD (pos + k) 0]?) := by
  intro n
  induction n with
  | zero =>
    intro pos e mem _ _ _
    exact ⟨mem, rfl, rfl, fun _ _ => rfl, rfl, fun _ _ => rfl, fun k hk => by omega⟩
  | succ n ih =>
    intro pos e mem hpos hb hcap
    have hp : pos < r2id.length := by omega
    have hrow : r2id[pos] < src.length := hr _ (List.getElem_mem hp)
    have hbuf : mem.getD b [] = mem[b] := List.getD_eq_getElem _ _ hb
    have he : e < mem[b].length := by rw [← hbuf]; omega
    have hdiv : e * sizeofT / sizeofT = e := Nat.mul_div_cancel e hT
    obtain ⟨mem2, h1, h2, h3, h4, h5, h6⟩ :=
      ih (pos + 1) (e + 1) (mem.set b (mem[b].set e src[r2id[pos]])) (by omega)
        (by simpa using hb) (by rw [getD_set_self _ _ _ hb]; simp; rw [← hbuf]; omega)
    have hev : (List.range (n + 1)).map (fun k =>
          (⟨pid, pos + k, r2id.getD (pos + k) 0, b, e + k⟩ : WriteEvent)) =
        ⟨pid, pos, r2id[pos], b, e⟩ :: (List.range n).map (fun k =>
          (⟨pid, pos + 1 + k, r2id.getD (pos + 1 + k) 0, b, e + 1 + k⟩ : WriteEvent)) := by
      rw [List.range_succ_eq_map, List.map_cons, List.map_map]
      congr 1
      · simp [List.getElem?_eq_getElem hp]
      · apply List.map_congr_left
        intro k _
        simp only [Function.comp, Nat.succ_eq_add_one]
        rw [show pos + (k + 1) = pos + 1 + k by omega, show e + (k + 1) = e + 1 + k by omega]
    refine ⟨mem2, ?_, ?_, ?_, ?_, ?_, ?_⟩
    · rw [hev]
      simp only [copyRun, List.getElem?_eq_getElem hp, List.getElem?_eq_getElem hrow,
        List.getElem?_eq_getElem hb, hdiv, he, if_true]
      rw [show e * sizeofT + sizeofT = (e + 1) * sizeofT by rw [Nat.succ_mul], h1]
    · simpa using h2
    · intro c hc
      rw [h3 c hc, getD_set_other _ _ _ _ hc]
    · rw [h4, getD_set_self _ _ _ hb, hbuf]; simp
    · intro i hi
      rw [h5 i (by omega)]
      unfold slot
      rw [getD_set_self _ _ _ hb, hbuf, List.getElem?_set_ne (by omega)]
    · intro k hk
      cases k with
      | zero =>
        simp only [Nat.add_zero]
        rw [h5 e (by omega)]
        unfold slot
        rw [getD_set_self _ _ _ hb]
        simp [List.getElem?_set, he, List.getElem?_eq_getElem hp, List.getElem?_eq_getElem hrow]
      | succ k =>
        have := h6 k (by omega)
        rw [show e + (k + 1) = e + 1 + k by omega, show pos + (k + 1) = pos + 1 + k by omega]
        exact this

theorem splitPartitions_spec {T : Type} (sizeofT : Nat) (hT : 0 < sizeofT)
    (w : VeloxShuffleWriter) (src : List T) (offs : List BytePtr)
    (hr : ∀ r ∈ w.rowOffset2RowId_, r < src.length)
    (hle : ∀ o ∈ w.partition2RowOffset_, o ≤ w.rowOffset2RowId_.length) :
    ∀ (n i : Nat) (mem : List (List T)), i + n + 1 ≤ w.partition2RowOffset_.length →
      i + n ≤ mem.length →
      (∀ pid, i ≤ pid → pid < i + n →
        offs[pid]? = some ⟨pid, w.partitionBufferIdxBase_.getD pid 0 * sizeofT⟩) →
      (∀ pid, i ≤ pid → pid < i + n →
        w.partitionBufferIdxBase_.getD pid 0 + runLength w pid ≤ (mem.getD pid []).length) →
      ∃ mem2, splitPartitions sizeofT src w.partition2RowOffset_ w.rowOffset2RowId_ offs n i mem
          = some (mem2, (List.range' i n).flatMap (runEvents w)) ∧
        mem2.length = mem.length ∧
        (∀ c, c < i ∨ i + n ≤ c → mem2.getD c [] = mem.getD c []) ∧
        (∀ pid, i ≤ pid → pid < i + n →
          (mem2.getD pid []).length = (mem.getD pid []).length ∧
          (∀ j, j < w.partitionBufferIdxBase_.getD pid 0 ∨
              w.partitionBufferIdxBase_.getD pid 0 + runLength w pid ≤ j →
            slot mem2 pid j = slot mem pid j) ∧
          (∀ k, k < runLength w pid →
            slot mem2 pid (w.partitionBufferIdxBase_.getD pid 0 + k) =
              src[w.rowOffset2RowId_.getD (w.partition2RowOffset_.getD pid 0 + k) 0]?)) := by
  intro n
  induction n with
  | zero =>
    intro i mem _ _ _ _
    exact ⟨mem, rfl, rfl, fun _ _ => rfl, fun pid h1 h2 => by omega⟩
  | succ n ih =>
    intro i mem hp2r hmem hoffs hcap
    have hi0 : i < w.partition2RowOffset_.length := by omega
    have hi1 : i + 1 < w.partition2RowOffset_.length := by omega
    have hg0 : w.partition2RowOffset_.getD i 0 = w.partition2RowOffset_[i] :=
      List.getD_eq_getElem _ _ hi0
    have hg1 : w.partition2RowOffset_.getD (i + 1) 0 = w.partition2RowOffset_[i + 1] :=
      List.getD_eq_getElem _ _ hi1
    have hle0 : w.partition2RowOffset_[i] ≤ w.rowOffset2RowId_.length :=
      hle _ (List.getElem_mem hi0)
    have hle1 : w.partition2RowOffset_[i + 1] ≤ w.rowOffset2RowId_.length :=
      hle _ (List.getElem_mem hi1)
    have hrl : runLength w i = w.partition2RowOffset_[i + 1] - w.partition2RowOffset_[i] := by
      unfold runLength; rw [hg0, hg1]
    obtain ⟨mem1, c1, c2, c3, c4, c5, c6⟩ :=
      copyRun_spec sizeofT hT src w.rowOffset2RowId_ i i hr
        (w.partition2RowOffset_[i + 1] - w.partition2RowOffset_[i]) w.partition2RowOffset_[i]
        (w.partitionBufferIdxBase_.getD i 0) mem (by omega) (by omega)
        (by rw [← hrl]; exact hcap i (Nat.le_refl _) (by omega))
    obtain ⟨mem2, s1, s2, s3, s4⟩ := ih (i + 1) mem1 (by omega) (by omega)
      (fun pid h1 h2 => hoffs pid (by omega) (by omega))
      (fun pid h1 h2 => by
        rw [c3 pid (by omega)]
        exact hcap pid (by omega) (by omega))
    have hev : (List.range' i (n + 1)).flatMap (runEvents w) =
        (List.range (w.partition2RowOffset_[i + 1] - w.partition2RowOffset_[i])).map
          (fun k => (⟨i, w.partition2RowOffset_[i] + k,
            w.rowOffset2RowId_.getD (w.partition2RowOffset_[i] + k) 0, i,
            w.partitionBufferIdxBase_.getD i 0 + k⟩ : WriteEvent)) ++
        (List.range' (i + 1) n).flatMap (runEvents w) := by
      rw [List.range'_succ, List.flatMap_cons]
      congr 1
      unfold runEvents
      rw [hrl, hg0]
    refine ⟨mem2, ?_, ?_, ?_, ?_⟩
    · rw [hev]
      simp only [splitPartitions, hoffs i (Nat.le_refl _) (by omega),
        List.getElem?_eq_getElem hi0, List.getElem?_eq_getElem hi1, c1, s1]
    · rw [s2, c2]
    · intro c hc
      rw [s3 c (by omega), c3 c (by omega)]
    · intro pid h1 h2
      by_cases hpi : pid = i
      · subst hpi
        have hsame : mem2.getD pid [] = mem1.getD pid [] := s3 pid (by omega)
        refine ⟨by rw [hsame, c4], ?_, ?_⟩
        · intro j hj
          unfold slot
          rw [hsame]
          exact c5 j (by rw [← hrl]; exact hj)
        · intro k hk
          unfold slot
          rw [hsame, hg0]
          exact c6 k (by rw [← hrl]; exact hk)
      · have hsame : mem1.getD pid [] = mem.getD pid [] := c3 pid hpi
        obtain ⟨t1, t2, t3⟩ := s4 pid (by omega) (by omega)
        refine ⟨by rw [t1, hsame], ?_, ?_⟩
        · intro j hj
          rw [t2 j hj]
          unfold slot
          rw [hsame]
        · exact t3

/-- Complete description of a call of `splitFixedType` whose accesses are all in range. -/
theorem splitFixedType_spec {T : Type} (sizeofT : Nat) (hT : 0 < sizeofT)
    (w : VeloxShuffleWriter) (src : List T) (dst : List (List T)) (h : InRange w src dst) :
    ∃ offs mem, splitFixedType sizeofT w src dst =
        some ⟨Status.OK, { w with partitionBufferIdxOffset_ := offs }, src, mem, allEvents w⟩ ∧
      offs.length = w.numPartitions_ ∧
      (∀ pid, pid < w.numPartitions_ →
        offs[pid]? = some ⟨pid, w.partitionBufferIdxBase_.getD pid 0 * sizeofT⟩) ∧
      mem.length = dst.length ∧
      (∀ pid, pid < w.numPartitions_ →
        (mem.getD pid []).length = (dst.getD pid []).length ∧
        (∀ j, j < w.partitionBufferIdxBase_.getD pid 0 ∨
            w.partitionBufferIdxBase_.getD pid 0 + runLength w pid ≤ j →
          slot mem pid j = slot dst pid j) ∧
        (∀ k, k < runLength w pid →
          slot mem pid (w.partitionBufferIdxBase_.getD pid 0 + k) =
            src[w.rowOffset2RowId_.getD (w.partition2RowOffset_.getD pid 0 + k) 0]?)) := by
  obtain ⟨offs, t1, t2, t3, _⟩ := transformOffsets_spec sizeofT w.partitionBufferIdxBase_
    dst.length 0 w.partitionBufferIdxOffset_
    (by rw [h.dst_size, h.base_size]; omega) (by rw [h.dst_size, h.offset_size]; omega)
  obtain ⟨mem, s1, s2, _, s4⟩ := splitPartitions_spec sizeofT hT w src offs h.rowId_lt h.p2r_le
    w.numPartitions_ 0 dst (by rw [h.p2r_size]; omega) (by rw [h.dst_size]; omega)
    (fun pid h1 h2 => t3 pid h1 (by rw [h.dst_size]; omega))
    (fun pid _ h2 => h.capacity pid (by omega))
  refine ⟨offs, mem, ?_, ?_, ?_, s2, ?_⟩
  · unfold splitFixedType allEvents
    rw [t1]
    simp only [s1, List.range_eq_range']
  · rw [t2, h.offset_size]
  · intro pid hp
    exact t3 pid (Nat.zero_le _) (by rw [h.dst_size]; omega)
  · intro pid hp
    exact s4 pid (Nat.zero_le _) (by omega)

theorem mem_allEvents (w : VeloxShuffleWriter) (e : WriteEvent) :
    e ∈ allEvents w ↔ ∃ pid k, pid < w.numPartitions_ ∧ k < runLength w pid ∧
      e = ⟨pid, w.partition2RowOffset_.getD pid 0 + k,
        w.rowOffset2RowId_.getD (w.partition2RowOffset_.getD pid 0 + k) 0,
        pid, w.partitionBufferIdxBase_.getD pid 0 + k⟩ := by
  unfold allEvents runEvents
  simp only [List.mem_flatMap, List.mem_map, List.mem_range]
  constructor
  · rintro ⟨pid, hp, k, hk, rfl⟩
    exact ⟨pid, k, hp, hk, rfl⟩
  · rintro ⟨pid, k, hp, hk, rfl⟩
    exact ⟨pid, hp, k, hk, rfl⟩

theorem rowId_in_range {T : Type} (w : VeloxShuffleWriter) (src : List T) (dst : List (List T))
    (h : InRange w src dst) (pid k : Nat) (hp : pid < w.numPartitions_)
    (hk : k < runLength w pid) :
    w.partition2RowOffset_.getD pid 0 + k < w.rowOffset2RowId_.length ∧
    w.rowOffset2RowId_.getD (w.partition2RowOffset_.getD pid 0 + k) 0 < src.length := by
  have hi1 : pid + 1 < w.partition2RowOffset_.length := by rw [h.p2r_size]; omega
  have hle1 : w.partition2RowOffset_[pid + 1] ≤ w.rowOffset2RowId_.length :=
    h.p2r_le _ (List.getElem_mem hi1)
  unfold runLength at hk
  rw [List.getD_eq_getElem _ _ hi1] at hk
  have hlt : w.partition2RowOffset_.getD pid 0 + k < w.rowOffset2RowId_.length := by omega
  refine ⟨hlt, ?_⟩
  rw [List.getD_eq_getElem _ _ hlt]
  exact h.rowId_lt _ (List.getElem_mem hlt)

/-- C1: `splitFixedType` is a gather-scatter copy driven by the RowOffsetIndex.  When all
indices are in range the call returns, and for every partition `pid < numPartitions_` and
every `k` with `partition2RowOffset_[pid] + k < partition2RowOffset_[pid + 1]` the element at
index `partitionBufferIdxBase_[pid] + k` of the destination buffer of `pid` equals the source
element at row id `rowOffset2RowId_[partition2RowOffset_[pid] + k]`, for every element type. -/
theorem splitFixedType_gather_scatter {T : Type} (sizeofT : Nat) (w : VeloxShuffleWriter)
    (srcAddr : List T) (dstAddrs : List (List T)) (hT : 0 < sizeofT)
    (h : InRange w srcAddr dstAddrs) :
    ∃ r, splitFixedType sizeofT w srcAddr dstAddrs = some r ∧
      ∀ pid k, pid < w.numPartitions_ →
        w.partition2RowOffset_.getD pid 0 + k < w.partition2RowOffset_.getD (pid + 1) 0 →
        ∃ v, srcAddr[w.rowOffset2RowId_.getD (w.partition2RowOffset_.getD pid 0 + k) 0]? = some v ∧
          slot r.dstAddrs pid (w.partitionBufferIdxBase_.getD pid 0 + k) = some v := by
  obtain ⟨offs, mem, hs, _, _, _, hm⟩ := splitFixedType_spec sizeofT hT w srcAddr dstAddrs h
  refine ⟨_, hs, ?_⟩
  intro pid k hp hk
  have hk2 : k < runLength w pid := by unfold runLength; omega
  obtain ⟨_, hrow⟩ := rowId_in_range w srcAddr dstAddrs h pid k hp hk2
  refine ⟨srcAddr[w.rowOffset2RowId_.getD (w.partition2RowOffset_.getD pid 0 + k) 0],
    List.getElem?_eq_getElem hrow, ?_⟩
  rw [← List.getElem?_eq_getElem hrow]
  exact (hm pid hp).2.2 k hk2

/-- C1 on the example state: the hypotheses hold there. -/
theorem splitFixedType_gather_scatter_witness :
    0 < 4 ∧ InRange exampleWriter exampleSrc exampleDst ∧
    ∃ r, splitFixedType 4 exampleWriter exampleSrc exampleDst = some r ∧
      ∀ pid k, pid < exampleWriter.numPartitions_ →
        exampleWriter.partition2RowOffset_.getD pid 0 + k <
          exampleWriter.partition2RowOffset_.getD (pid + 1) 0 →
        ∃ v, exampleSrc[exampleWriter.rowOffset2RowId_.getD
              (exampleWriter.partition2RowOffset_.getD pid 0 + k) 0]? = some v ∧
          slot r.dstAddrs pid (exampleWriter.partitionBufferIdxBase_.getD pid 0 + k) = some v :=
  have hR : InRange exampleWriter exampleSrc exampleDst :=
    ⟨by decide, by decide, by decide, by decide, by decide, by decide, by decide⟩
  ⟨by decide, hR,
    splitFixedType_gather_scatter 4 exampleWriter exampleSrc exampleDst (by decide) hR⟩

/-- C3: `splitFixedType` appends in scatter order and disturbs nothing else.  For every
partition every slot outside `[partitionBufferIdxBase_[pid], partitionBufferIdxBase_[pid] +
n_pid)` is unchanged (in particular the rows buffered below the base), a partition with an
empty run keeps its whole buffer, every write of partition `pid` lands inside that window of
the buffer of `pid`, and of two run positions `p < q` of one partition the value of `p` is
stored at the strictly lower index: every position `k` of the run of `pid` is written, in
the order of the run, and after the call slot `partitionBufferIdxBase_[pid] + k` holds the
source value of the row at that position. -/
theorem splitFixedType_frame_order {T : Type} (sizeofT : Nat) (w : VeloxShuffleWriter)
    (srcAddr : List T) (dstAddrs : List (List T)) (hT : 0 < sizeofT)
    (h : InRange w srcAddr dstAddrs) :
    ∃ r, splitFixedType sizeofT w srcAddr dstAddrs = some r ∧
      r.dstAddrs.length = dstAddrs.length ∧
      (∀ pid j, pid < w.numPartitions_ →
        (j < w.partitionBufferIdxBase_.getD pid 0 ∨
          w.partitionBufferIdxBase_.getD pid 0 + runLength w pid ≤ j) →
        slot r.dstAddrs pid j = slot dstAddrs pid j) ∧
      (∀ pid, pid < w.numPartitions_ → runLength w pid = 0 →
        r.dstAddrs.getD pid [] = dstAddrs.getD pid []) ∧
      (∀ e ∈ r.writes, e.dstBuf = e.pid ∧
        w.partitionBufferIdxBase_.getD e.pid 0 ≤ e.dstIdx ∧
        e.dstIdx < w.partitionBufferIdxBase_.getD e.pid 0 + runLength w e.pid) ∧
      (∀ e1 ∈ r.writes, ∀ e2 ∈ r.writes, e1.pid = e2.pid → e1.pos < e2.pos →
        e1.dstBuf = e2.dstBuf ∧ e1.dstIdx < e2.dstIdx) ∧
      r.writes = allEvents w ∧
      (∀ pid k, pid < w.numPartitions_ → k < runLength w pid →
        (⟨pid, w.partition2RowOffset_.getD pid 0 + k,
          w.rowOffset2RowId_.getD (w.partition2RowOffset_.getD pid 0 + k) 0, pid,
          w.partitionBufferIdxBase_.getD pid 0 + k⟩ : WriteEvent) ∈ r.writes ∧
        ∃ v, srcAddr[w.rowOffset2RowId_.getD (w.partition2RowOffset_.getD pid 0 + k) 0]? =
            some v ∧
          slot r.dstAddrs pid (w.partitionBufferIdxBase_.getD pid 0 + k) = some v) ∧
      (∀ pid p q, pid < w.numPartitions_ → p < q → q < runLength w pid →
        w.partitionBufferIdxBase_.getD pid 0 + p < w.partitionBufferIdxBase_.getD pid 0 + q ∧
        ∃ vp vq,
          srcAddr[w.rowOffset2RowId_.getD (w.partition2RowOffset_.getD pid 0 + p) 0]? =
            some vp ∧
          slot r.dstAddrs pid (w.partitionBufferIdxBase_.getD pid 0 + p) = some vp ∧
          srcAddr[w.rowOffset2RowId_.getD (w.partition2RowOffset_.getD pid 0 + q) 0]? =
            some vq ∧
          slot r.dstAddrs pid (w.partitionBufferIdxBase_.getD pid 0 + q) = some vq) := by
  obtain ⟨offs, mem, hs, _, _, hlen, hm⟩ := splitFixedType_spec sizeofT hT w srcAddr dstAddrs h
  have hval : ∀ pid k, pid < w.numPartitions_ → k < runLength w pid →
      ∃ v, srcAddr[w.rowOffset2RowId_.getD (w.partition2RowOffset_.getD pid 0 + k) 0]? =
          some v ∧
        slot mem pid (w.partitionBufferIdxBase_.getD pid 0 + k) = some v := by
    intro pid k hp hk
    obtain ⟨_, hrow⟩ := rowId_in_range w srcAddr dstAddrs h pid k hp hk
    refine ⟨_, List.getElem?_eq_getElem hrow, ?_⟩
    rw [← List.getElem?_eq_getElem hrow]
    exact (hm pid hp).2.2 k hk
  refine ⟨_, hs, hlen, ?_, ?_, ?_, ?_, rfl, ?_, ?_⟩
  · intro pid j hp hj
    exact (hm pid hp).2.1 j hj
  · intro pid hp h0
    apply List.ext_getElem?
    intro j
    exact (hm pid hp).2.1 j (by omega)
  · intro e he
    obtain ⟨pid, k, _, hk, rfl⟩ := (mem_allEvents w e).1 he
    exact ⟨rfl, Nat.le_add_right _ _, by simp only; omega⟩
  · intro e1 he1 e2 he2 hpid hpos
    obtain ⟨p1, k1, _, _, rfl⟩ := (mem_allEvents w e1).1 he1
    obtain ⟨p2, k2, _, _, rfl⟩ := (mem_allEvents w e2).1 he2
    simp only at hpid hpos
    subst hpid
    exact ⟨rfl, by simp only; omega⟩
  · intro pid k hp hk
    exact ⟨(mem_allEvents w _).2 ⟨pid, k, hp, hk, rfl⟩, hval pid k hp hk⟩
  · intro pid p q hp hpq hq
    obtain ⟨vp, hp1, hp2⟩ := hval pid p hp (by omega)
    obtain ⟨vq, hq1, hq2⟩ := hval pid q hp hq
    exact ⟨by omega, vp, vq, hp1, hp2, hq1, hq2⟩

/-- C3 on the example state: the hypotheses hold there, and partition 0 has a run of two
positions. -/
theorem splitFixedType_frame_order_witness :
    0 < 4 ∧ InRange exampleWriter exampleSrc exampleDst ∧
    ∃ r, splitFixedType 4 exampleWriter exampleSrc exampleDst = some r ∧
      r.dstAddrs.length = exampleDst.length ∧
      (∀ pid j, pid < exampleWriter.numPartitions_ →
        (j < exampleWriter.partitionBufferIdxBase_.getD pid 0 ∨
          exampleWriter.partitionBufferIdxBase_.getD pid 0 + runLength exampleWriter pid ≤ j) →
        slot r.dstAddrs pid j = slot exampleDst pid j) ∧
      (∀ pid, pid < exampleWriter.numPartitions_ → runLength exampleWriter pid = 0 →
        r.dstAddrs.getD pid [] = exampleDst.getD pid []) ∧
      (∀ e ∈ r.writes, e.dstBuf = e.pid ∧
        exampleWriter.partitionBufferIdxBase_.getD e.pid 0 ≤ e.dstIdx ∧
        e.dstIdx < exampleWriter.partitionBufferIdxBase_.getD e.pid 0 + runLength exampleWriter e.pid) ∧
      (∀ e1 ∈ r.writes, ∀ e2 ∈ r.writes, e1.pid = e2.pid → e1.pos < e2.pos →
        e1.dstBuf = e2.dstBuf ∧ e1.dstIdx < e2.dstIdx) ∧
      r.writes = allEvents exampleWriter ∧
      (∀ pid k, pid < exampleWriter.numPartitions_ → k < runLength exampleWriter pid →
        (⟨pid, exampleWriter.partition2RowOffset_.getD pid 0 + k,
          exampleWriter.rowOffset2RowId_.getD (exampleWriter.partition2RowOffset_.getD pid 0 + k) 0, pid,
          exampleWriter.partitionBufferIdxBase_.getD pid 0 + k⟩ : WriteEvent) ∈ r.writes ∧
        ∃ v, exampleSrc[exampleWriter.rowOffset2RowId_.getD (exampleWriter.partition2RowOffset_.getD pid 0 + k) 0]? =
            some v ∧
          slot r.dstAddrs pid (exampleWriter.partitionBufferIdxBase_.getD pid 0 + k) = some v) ∧
      (∀ pid p q, pid < exampleWriter.numPartitions_ → p < q → q < runLength exampleWriter pid →
        exampleWriter.partitionBufferIdxBase_.getD pid 0 + p < exampleWriter.partitionBufferIdxBase_.getD pid 0 + q ∧
        ∃ vp vq,
          exampleSrc[exampleWriter.rowOffset2RowId_.getD (exampleWriter.partition2RowOffset_.getD pid 0 + p) 0]? =
            some vp ∧
          slot r.dstAddrs pid (exampleWriter.partitionBufferIdxBase_.getD pid 0 + p) = some vp ∧
          exampleSrc[exampleWriter.rowOffset2RowId_.getD (exampleWriter.partition2RowOffset_.getD pid 0 + q) 0]? =
            some vq ∧
          slot r.dstAddrs pid (exampleWriter.partitionBufferIdxBase_.getD pid 0 + q) = some vq) :=
  have hR : InRange exampleWriter exampleSrc exampleDst :=
    ⟨by decide, by decide, by decide, by decide, by decide, by decide, by decide⟩
  ⟨by decide, hR,
    splitFixedType_frame_order 4 exampleWriter exampleSrc exampleDst (by decide) hR⟩

/-- C9: `splitFixedType` stays inside its arrays and always succeeds.  If `dstAddrs`,
`partitionBufferIdxBase_` and `partitionBufferIdxOffset_` have `numPartitions_` entries,
`partition2RowOffset_` has `numPartitions_ + 1` entries each at most
`rowOffset2RowId_.size()`, every row id is below the number of source rows and every
partition has room for its run above its base, then no access is out of range, every write
stays below the capacity of its partition buffer, and the call returns `Status::OK`. -/
theorem splitFixedType_in_bounds_ok {T : Type} (sizeofT : Nat) (w : VeloxShuffleWriter)
    (srcAddr : List T) (dstAddrs : List (List T)) (hT : 0 < sizeofT)
    (h : InRange w srcAddr dstAddrs) :
    ∃ r, splitFixedType sizeofT w srcAddr dstAddrs = some r ∧ r.status = Status.OK ∧
      ∀ e ∈ r.writes, e.pos < w.rowOffset2RowId_.length ∧ e.rowId < srcAddr.length ∧
        e.dstBuf < dstAddrs.length ∧ e.dstIdx < (dstAddrs.getD e.dstBuf []).length := by
  obtain ⟨offs, mem, hs, _, _, _, _⟩ := splitFixedType_spec sizeofT hT w srcAddr dstAddrs h
  refine ⟨_, hs, rfl, ?_⟩
  intro e he
  obtain ⟨pid, k, hp, hk, rfl⟩ := (mem_allEvents w e).1 he
  obtain ⟨h1, h2⟩ := rowId_in_range w srcAddr dstAddrs h pid k hp hk
  have hcap := h.capacity pid hp
  exact ⟨h1, h2, by rw [h.dst_size]; exact hp, by simp only; omega⟩

/-- C9 on the example state: the hypotheses hold there. -/
theorem splitFixedType_in_bounds_ok_witness :
    0 < 4 ∧ InRange exampleWriter exampleSrc exampleDst ∧
    ∃ r, splitFixedType 4 exampleWriter exampleSrc exampleDst = some r ∧
      r.status = Status.OK ∧
      ∀ e ∈ r.writes, e.pos < exampleWriter.rowOffset2RowId_.length ∧
        e.rowId < exampleSrc.length ∧ e.dstBuf < exampleDst.length ∧
        e.dstIdx < (exampleDst.getD e.dstBuf []).length :=
  have hR : InRange exampleWriter exampleSrc exampleDst :=
    ⟨by decide, by decide, by decide, by decide, by decide, by decide, by decide⟩
  ⟨by decide, hR,
    splitFixedType_in_bounds_ok 4 exampleWriter exampleSrc exampleDst (by decide) hR⟩

/-- C10: `splitFixedType` does not advance usedRows.  It returns with `numPartitions_`,
`partitionBufferIdxBase_`, `partition2RowOffset_`, `rowOffset2RowId_` and the source column
unchanged (only destination slots and the temporary array `partitionBufferIdxOffset_` are
overwritten), so a following call for another fixed-width column of the same batch, of any
element type and size, writes exactly the same rows to exactly the same per-partition row
offsets. -/
theorem splitFixedType_keeps_usedRows {T U : Type} (sizeofT sizeofU : Nat)
    (w : VeloxShuffleWriter) (srcAddr : List T) (dstAddrs : List (List T))
    (srcAddr2 : List U) (dstAddrs2 : List (List U)) (hT : 0 < sizeofT) (hU : 0 < sizeofU)
    (h : InRange w srcAddr dstAddrs) (h2 : InRange w srcAddr2 dstAddrs2) :
    ∃ r, splitFixedType sizeofT w srcAddr dstAddrs = some r ∧
      r.writer.numPartitions_ = w.numPartitions_ ∧
      r.writer.partitionBufferIdxBase_ = w.partitionBufferIdxBase_ ∧
      r.writer.partition2RowOffset_ = w.partition2RowOffset_ ∧
      r.writer.rowOffset2RowId_ = w.rowOffset2RowId_ ∧
      r.srcAddr = srcAddr ∧
      r.writer.partitionBufferIdxOffset_.length = w.partitionBufferIdxOffset_.length ∧
      ∃ r2, splitFixedType sizeofU r.writer srcAddr2 dstAddrs2 = some r2 ∧
        r2.writes = r.writes ∧
        r2.writer.partitionBufferIdxBase_ = w.partitionBufferIdxBase_ := by
  obtain ⟨offs, mem, hs, hoffs, _, _, _⟩ := splitFixedType_spec sizeofT hT w srcAddr dstAddrs h
  have h3 : InRange { w with partitionBufferIdxOffset_ := offs } srcAddr2 dstAddrs2 :=
    ⟨h2.dst_size, h2.base_size, hoffs, h2.p2r_size, h2.p2r_le, h2.rowId_lt, h2.capacity⟩
  obtain ⟨offs2, mem2, hs2, _, _, _, _⟩ :=
    splitFixedType_spec sizeofU hU { w with partitionBufferIdxOffset_ := offs } srcAddr2
      dstAddrs2 h3
  refine ⟨_, hs, rfl, rfl, rfl, rfl, rfl, ?_, _, hs2, rfl, rfl⟩
  simp only [hoffs, h.offset_size]

/-- C10 on the example state: the hypotheses hold there. -/
theorem splitFixedType_keeps_usedRows_witness :
    0 < 4 ∧ 0 < 8 ∧ InRange exampleWriter exampleSrc exampleDst ∧
    InRange exampleWriter exampleSrc exampleDst ∧
    ∃ r, splitFixedType 4 exampleWriter exampleSrc exampleDst = some r ∧
      r.writer.numPartitions_ = exampleWriter.numPartitions_ ∧
      r.writer.partitionBufferIdxBase_ = exampleWriter.partitionBufferIdxBase_ ∧
      r.writer.partition2RowOffset_ = exampleWriter.partition2RowOffset_ ∧
      r.writer.rowOffset2RowId_ = exampleWriter.rowOffset2RowId_ ∧
      r.srcAddr = exampleSrc ∧
      r.writer.partitionBufferIdxOffset_.length =
        exampleWriter.partitionBufferIdxOffset_.length ∧
      ∃ r2, splitFixedType 8 r.writer exampleSrc exampleDst = some r2 ∧
        r2.writes = r.writes ∧
        r2.writer.partitionBufferIdxBase_ = exampleWriter.partitionBufferIdxBase_ :=
  have hR : InRange exampleWriter exampleSrc exampleDst :=
    ⟨by decide, by decide, by decide, by decide, by decide, by decide, by decide⟩
  ⟨by decide, by decide, hR, hR,
    splitFixedType_keeps_usedRows 4 8 exampleWriter exampleSrc exampleDst exampleSrc
      exampleDst (by decide) (by decide) hR hR⟩

theorem map_getD_eq_slice (l : List Nat) (a len : Nat) (h : a + len ≤ l.length) :
    (List.range len).map (fun k => l.getD (a + k) 0) = (l.drop a).take len := by
  apply List.ext_getElem?
  intro j
  rw [List.getElem?_map, List.getElem?_take, List.getElem?_drop]
  by_cases hj : j < len
  · have hlt : a + j < l.length := by omega
    simp [List.getElem?_range hj, hj, List.getElem?_eq_getElem hlt]
  · have : (List.range len)[j]? = none := List.getElem?_eq_none (by simp; omega)
    simp [this, hj]

theorem rowIds_upto {T : Type} (w : VeloxShuffleWriter) (src : List T) (dst : List (List T))
    (rowNum : Nat) (h : InRange w src dst) (hw : WellFormedIndex w rowNum) :
    ∀ m, m ≤ w.numPartitions_ →
      ((List.range m).flatMap (runEvents w)).map WriteEvent.rowId =
        w.rowOffset2RowId_.take (w.partition2RowOffset_.getD m 0) := by
  intro m
  induction m with
  | zero => intro _; rw [hw.first]; simp
  | succ m ih =>
    intro hm
    have hi1 : m + 1 < w.partition2RowOffset_.length := by rw [h.p2r_size]; omega
    have hle1 : w.partition2RowOffset_.getD (m + 1) 0 ≤ w.rowOffset2RowId_.length := by
      rw [List.getD_eq_getElem _ _ hi1]
      exact h.p2r_le _ (List.getElem_mem hi1)
    have hmono := hw.mono m (by omega)
    rw [List.range_succ, List.flatMap_append, List.map_append, ih (by omega)]
    have hrun : (List.flatMap [m] (runEvents w)).map WriteEvent.rowId =
        (w.rowOffset2RowId_.drop (w.partition2RowOffset_.getD m 0)).take (runLength w m) := by
      rw [← map_getD_eq_slice _ _ _ (by unfold runLength; omega)]
      simp [runEvents, List.map_map, Function.comp_def]
    rw [hrun, ← List.take_add]
    congr 1
    unfold runLength
    omega

theorem rowIds_allEvents {T : Type} (w : VeloxShuffleWriter) (src : List T)
    (dst : List (List T)) (rowNum : Nat) (h : InRange w src dst)
    (hw : WellFormedIndex w rowNum) :
    (allEvents w).map WriteEvent.rowId = w.rowOffset2RowId_ := by
  unfold allEvents
  rw [rowIds_upto w src dst rowNum h hw _ (Nat.le_refl _), hw.last]
  apply List.take_of_length_le
  rw [hw.perm.length_eq, List.length_range]

theorem sum_countP_key (f : WriteEvent → Nat) (l : List WriteEvent) (n : Nat)
    (h : ∀ e ∈ l, f e < n) :
    ((List.range n).map fun pid => l.countP (fun e => f e == pid)).sum = l.length := by
  induction l with
  | nil => simp
  | cons e l ih =>
    have hl : ∀ e ∈ l, f e < n := fun x hx => h x (List.mem_cons_of_mem _ hx)
    have he : f e < n := h e (List.mem_cons_self _ _)
    have hone : ∀ m, f e < m →
        ((List.range m).map fun pid => if f e = pid then 1 else 0).sum = 1 := by
      intro m
      induction m with
      | zero => intro hm; omega
      | succ m ihm =>
        intro hm
        rw [List.range_succ, List.map_append, List.sum_append]
        by_cases hem : f e = m
        · have hz : ((List.range m).map fun pid => if f e = pid then 1 else 0).sum = 0 := by
            apply List.sum_eq_zero
            intro x hx
            simp only [List.mem_map, List.mem_range] at hx
            obtain ⟨q, hq, rfl⟩ := hx
            rw [if_neg (by omega)]
          rw [hz, hem]; simp
        · rw [ihm (by omega)]
          simp [hem]
    have hsplit : ((List.range n).map fun pid => (e :: l).countP (fun e => f e == pid)).sum =
        ((List.range n).map fun pid => l.countP (fun e => f e == pid)).sum +
        ((List.range n).map fun pid => if f e = pid then 1 else 0).sum := by
      rw [← List.sum_map_add]
      congr 1
      apply List.map_congr_left
      intro pid _
      simp [List.countP_cons]
    rw [hsplit, ih hl, hone n he, List.length_cons]

/-- C2: no row is lost or duplicated by `splitFixedType`.  For a batch of `rowNum` rows whose
RowOffsetIndex is well formed, the call performs exactly `rowNum` element writes, the numbers
of elements written into the partition buffers sum to `rowNum`, every source row id below
`rowNum` is copied by exactly one write, no two writes hit the same (partition, destination
index) slot, and after the call each written slot holds the value of its source row. -/
theorem splitFixedType_no_loss_no_dup {T : Type} (sizeofT : Nat) (w : VeloxShuffleWriter)
    (srcAddr : List T) (dstAddrs : List (List T)) (rowNum : Nat) (hT : 0 < sizeofT)
    (h : InRange w srcAddr dstAddrs) (hw : WellFormedIndex w rowNum) :
    ∃ r, splitFixedType sizeofT w srcAddr dstAddrs = some r ∧
      r.writes.length = rowNum ∧
      ((List.range w.numPartitions_).map fun pid =>
        r.writes.countP (fun e => e.dstBuf == pid)).sum = rowNum ∧
      (∀ row, row < rowNum → ∃! e, e ∈ r.writes ∧ e.rowId = row) ∧
      (∀ e1 ∈ r.writes, ∀ e2 ∈ r.writes,
        e1.dstBuf = e2.dstBuf → e1.dstIdx = e2.dstIdx → e1 = e2) ∧
      (∀ e ∈ r.writes, e.dstBuf < w.numPartitions_ ∧ e.rowId < rowNum ∧
        ∃ v, srcAddr[e.rowId]? = some v ∧ slot r.dstAddrs e.dstBuf e.dstIdx = some v) := by
  obtain ⟨offs, mem, hs, _, _, _, hm⟩ := splitFixedType_spec sizeofT hT w srcAddr dstAddrs h
  have hids := rowIds_allEvents w srcAddr dstAddrs rowNum h hw
  have hlen : (allEvents w).length = rowNum := by
    rw [← List.length_map (allEvents w) WriteEvent.rowId, hids, hw.perm.length_eq,
      List.length_range]
  have hbuf : ∀ e ∈ allEvents w, e.dstBuf < w.numPartitions_ := by
    intro e he
    obtain ⟨pid, k, hp, _, rfl⟩ := (mem_allEvents w e).1 he
    exact hp
  have hnodup : ((allEvents w).map WriteEvent.rowId).Nodup := by
    rw [hids]
    exact (hw.perm.nodup_iff).2 (List.nodup_range rowNum)
  refine ⟨_, hs, hlen, ?_, ?_, ?_, ?_⟩
  · rw [sum_countP_key WriteEvent.dstBuf (allEvents w) w.numPartitions_ hbuf, hlen]
  · intro row hrow
    have hmem : row ∈ (allEvents w).map WriteEvent.rowId := by
      rw [hids]
      exact (hw.perm.mem_iff).2 (List.mem_range.2 hrow)
    obtain ⟨e, he, hre⟩ := List.mem_map.1 hmem
    refine ⟨e, ⟨he, hre⟩, ?_⟩
    rintro e2 ⟨he2, hre2⟩
    exact List.inj_on_of_nodup_map hnodup he2 he (by rw [hre, hre2])
  · intro e1 he1 e2 he2 hb hi
    obtain ⟨p1, k1, _, _, rfl⟩ := (mem_allEvents w e1).1 he1
    obtain ⟨p2, k2, _, _, rfl⟩ := (mem_allEvents w e2).1 he2
    simp only at hb hi
    subst hb
    have hk : k1 = k2 := by omega
    subst hk
    rfl
  · intro e he
    have hrow : e.rowId < rowNum := by
      have : e.rowId ∈ (allEvents w).map WriteEvent.rowId := List.mem_map_of_mem _ he
      rw [hids] at this
      exact List.mem_range.1 ((hw.perm.mem_iff).1 this)
    obtain ⟨pid, k, hp, hk, rfl⟩ := (mem_allEvents w e).1 he
    obtain ⟨_, hsrc⟩ := rowId_in_range w srcAddr dstAddrs h pid k hp hk
    refine ⟨hp, hrow, _, List.getElem?_eq_getElem hsrc, ?_⟩
    rw [← List.getElem?_eq_getElem hsrc]
    exact (hm pid hp).2.2 k hk

/-- C2 on the example state: the hypotheses hold there. -/
theorem splitFixedType_no_loss_no_dup_witness :
    0 < 4 ∧ InRange exampleWriter exampleSrc exampleDst ∧ WellFormedIndex exampleWriter 3 ∧
    ∃ r, splitFixedType 4 exampleWriter exampleSrc exampleDst = some r ∧
      r.writes.length = 3 ∧
      ((List.range exampleWriter.numPartitions_).map fun pid =>
        r.writes.countP (fun e => e.dstBuf == pid)).sum = 3 ∧
      (∀ row, row < 3 → ∃! e, e ∈ r.writes ∧ e.rowId = row) ∧
      (∀ e1 ∈ r.writes, ∀ e2 ∈ r.writes,
        e1.dstBuf = e2.dstBuf → e1.dstIdx = e2.dstIdx → e1 = e2) ∧
      (∀ e ∈ r.writes, e.dstBuf < exampleWriter.numPartitions_ ∧ e.rowId < 3 ∧
        ∃ v, exampleSrc[e.rowId]? = some v ∧ slot r.dstAddrs e.dstBuf e.dstIdx = some v) :=
  have hR : InRange exampleWriter exampleSrc exampleDst :=
    ⟨by decide, by decide, by decide, by decide, by decide, by decide, by decide⟩
  have hW : WellFormedIndex exampleWriter 3 := ⟨by decide, by decide, by decide, by decide⟩
  ⟨by decide, hR, hW,
    splitFixedType_no_loss_no_dup 4 exampleWriter exampleSrc exampleDst 3 (by decide) hR hW⟩

/-! ## Theorems about `rawPartitionBytes` -/

theorem wrapInt64_add_wrap (a x : Int) : wrapInt64 (wrapInt64 a + x) = wrapInt64 (a + x) := by
  unfold wrapInt64
  omega

theorem wrapInt64_of_fits (z : Int) (h1 : -2 ^ 63 ≤ z) (h2 : z < 2 ^ 63) : wrapInt64 z = z := by
  unfold wrapInt64
  omega

theorem accumulate_eq (l : List Int) :
    ∀ init, accumulate l (wrapInt64 init) = wrapInt64 (init + l.sum) := by
  induction l with
  | nil => intro init; simp [accumulate]
  | cons x rest ih =>
    intro init
    rw [accumulate, wrapInt64_add_wrap, ih, List.sum_cons, Int.add_assoc]

/-- C5: `rawPartitionBytes` returns the sum of the raw byte lengths recorded for all
partitions as a 64-bit signed integer, and returns 0 when no lengths are recorded. -/
theorem rawPartitionBytes_sum (rawPartitionLengths_ : List Int) :
    rawPartitionBytes rawPartitionLengths_ = wrapInt64 rawPartitionLengths_.sum ∧
    rawPartitionBytes [] = 0 := by
  constructor
  · have h := accumulate_eq rawPartitionLengths_ 0
    rw [show wrapInt64 0 = 0 by decide, Int.zero_add] at h
    exact h
  · rfl

/-! ## Theorems about `sparkToDateTime` -/

theorem andThen_some (a b : Bool) : andThen (some a) (some b) = some (a && b) := by
  cases a <;> rfl

theorem checkNumbericASCII_eq (rb : List Char) :
    ∀ (n start : Nat), start + n ≤ rb.length →
      checkNumbericASCII rb start n = some (((rb.drop start).take n).all isNumericASCII) := by
  intro n
  induction n with
  | zero => intro start _; simp [checkNumbericASCII]
  | succ n ih =>
    intro start h
    have hs : start < rb.length := by omega
    rw [checkNumbericASCII, List.getElem?_eq_getElem hs, List.drop_eq_getElem_cons hs]
    simp only [List.take_succ_cons, List.all_cons]
    cases hc : isNumericASCII rb[start]
    · simp
    · simp [ih (start + 1) (by omega)]

theorem checkDelimiter_eq (rb : List Char) (pos : Nat) (delim : Char) (c : Char)
    (h : rb[pos]? = some c) : checkDelimiter rb pos delim = some (c == delim) := by
  unfold checkDelimiter
  rw [h]
  by_cases hc : c = delim <;> simp [hc]

theorem dateChain_eq (a0 a1 a2 a3 a4 a5 a6 a7 a8 a9 : Char) (rest : List Char) :
    andThen (checkNumbericASCII (a0 :: a1 :: a2 :: a3 :: a4 :: a5 :: a6 :: a7 :: a8 :: a9 :: rest) 0 4)
      (andThen (checkDelimiter (a0 :: a1 :: a2 :: a3 :: a4 :: a5 :: a6 :: a7 :: a8 :: a9 :: rest) 4 '-')
      (andThen (checkNumbericASCII (a0 :: a1 :: a2 :: a3 :: a4 :: a5 :: a6 :: a7 :: a8 :: a9 :: rest) 5 2)
      (andThen (checkDelimiter (a0 :: a1 :: a2 :: a3 :: a4 :: a5 :: a6 :: a7 :: a8 :: a9 :: rest) 7 '-')
      (checkNumbericASCII (a0 :: a1 :: a2 :: a3 :: a4 :: a5 :: a6 :: a7 :: a8 :: a9 :: rest) 8 2)))) =
    some (startsWithDate (a0 :: a1 :: a2 :: a3 :: a4 :: a5 :: a6 :: a7 :: a8 :: a9 :: rest)) := by
  rw [checkNumbericASCII_eq _ 4 0 (by simp), checkNumbericASCII_eq _ 2 5 (by simp),
    checkNumbericASCII_eq _ 2 8 (by simp), checkDelimiter_eq _ 4 '-' a4 rfl,
    checkDelimiter_eq _ 7 '-' a7 rfl]
  simp only [andThen_some]
  simp [startsWithDate, matchesShape, dateShape, Bool.and_assoc]

theorem dateTimeChain_eq (a0 a1 a2 a3 a4 a5 a6 a7 a8 a9 a10 a11 a12 a13 a14 a15 a16 a17 a18 : Char) (rest : List Char) :
    andThen (checkNumbericASCII (a0 :: a1 :: a2 :: a3 :: a4 :: a5 :: a6 :: a7 :: a8 :: a9 :: a10 :: a11 :: a12 :: a13 :: a14 :: a15 :: a16 :: a17 :: a18 :: rest) 0 4)
      (andThen (checkDelimiter (a0 :: a1 :: a2 :: a3 :: a4 :: a5 :: a6 :: a7 :: a8 :: a9 :: a10 :: a11 :: a12 :: a13 :: a14 :: a15 :: a16 :: a17 :: a18 :: rest) 4 '-')
      (andThen (checkNumbericASCII (a0 :: a1 :: a2 :: a3 :: a4 :: a5 :: a6 :: a7 :: a8 :: a9 :: a10 :: a11 :: a12 :: a13 :: a14 :: a15 :: a16 :: a17 :: a18 :: rest) 5 2)
      (andThen (checkDelimiter (a0 :: a1 :: a2 :: a3 :: a4 :: a5 :: a6 :: a7 :: a8 :: a9 :: a10 :: a11 :: a12 :: a13 :: a14 :: a15 :: a16 :: a17 :: a18 :: rest) 7 '-')
      (andThen (checkNumbericASCII (a0 :: a1 :: a2 :: a3 :: a4 :: a5 :: a6 :: a7 :: a8 :: a9 :: a10 :: a11 :: a12 :: a13 :: a14 :: a15 :: a16 :: a17 :: a18 :: rest) 8 2)
      (andThen (checkDelimiter (a0 :: a1 :: a2 :: a3 :: a4 :: a5 :: a6 :: a7 :: a8 :: a9 :: a10 :: a11 :: a12 :: a13 :: a14 :: a15 :: a16 :: a17 :: a18 :: rest) 10 ' ')
      (andThen (checkNumbericASCII (a0 :: a1 :: a2 :: a3 :: a4 :: a5 :: a6 :: a7 :: a8 :: a9 :: a10 :: a11 :: a12 :: a13 :: a14 :: a15 :: a16 :: a17 :: a18 :: rest) 11 2)
      (andThen (checkDelimiter (a0 :: a1 :: a2 :: a3 :: a4 :: a5 :: a6 :: a7 :: a8 :: a9 :: a10 :: a11 :: a12 :: a13 :: a14 :: a15 :: a16 :: a17 :: a18 :: rest) 13 ':')
      (andThen (checkNumbericASCII (a0 :: a1 :: a2 :: a3 :: a4 :: a5 :: a6 :: a7 :: a8 :: a9 :: a10 :: a11 :: a12 :: a13 :: a14 :: a15 :: a16 :: a17 :: a18 :: rest) 14 2)
      (andThen (checkDelimiter (a0 :: a1 :: a2 :: a3 :: a4 :: a5 :: a6 :: a7 :: a8 :: a9 :: a10 :: a11 :: a12 :: a13 :: a14 :: a15 :: a16 :: a17 :: a18 :: rest) 16 ':')
      (checkNumbericASCII (a0 :: a1 :: a2 :: a3 :: a4 :: a5 :: a6 :: a7 :: a8 :: a9 :: a10 :: a11 :: a12 :: a13 :: a14 :: a15 :: a16 :: a17 :: a18 :: rest) 17 2)))))))))) =
    some (startsWithDateTime (a0 :: a1 :: a2 :: a3 :: a4 :: a5 :: a6 :: a7 :: a8 :: a9 :: a10 :: a11 :: a12 :: a13 :: a14 :: a15 :: a16 :: a17 :: a18 :: rest)) := by
  rw [checkNumbericASCII_eq _ 4 0 (by simp), checkNumbericASCII_eq _ 2 5 (by simp),
    checkNumbericASCII_eq _ 2 8 (by simp), checkNumbericASCII_eq _ 2 11 (by simp),
    checkNumbericASCII_eq _ 2 14 (by simp), checkNumbericASCII_eq _ 2 17 (by simp),
    checkDelimiter_eq _ 4 '-' a4 rfl, checkDelimiter_eq _ 7 '-' a7 rfl,
    checkDelimiter_eq _ 10 ' ' a10 rfl, checkDelimiter_eq _ 13 ':' a13 rfl,
    checkDelimiter_eq _ 16 ':' a16 rfl]
  simp only [andThen_some]
  simp [startsWithDateTime, matchesShape, dateTimeShape, Bool.and_assoc]

theorem exists_cons_of_succ_le_length (s : List Char) (n : Nat) (h : n + 1 ≤ s.length) :
    ∃ a t, s = a :: t ∧ n ≤ t.length := by
  cases s with
  | nil => simp at h
  | cons a t => exact ⟨a, t, rfl, by simpa using h⟩

theorem exists_ten_cons (s : List Char) (h : 10 ≤ s.length) :
    ∃ a0 a1 a2 a3 a4 a5 a6 a7 a8 a9 rest,
      s = a0 :: a1 :: a2 :: a3 :: a4 :: a5 :: a6 :: a7 :: a8 :: a9 :: rest := by
  obtain ⟨a0, t0, rfl, h0⟩ := exists_cons_of_succ_le_length s 9 h
  obtain ⟨a1, t1, rfl, h1⟩ := exists_cons_of_succ_le_length t0 8 h0
  obtain ⟨a2, t2, rfl, h2⟩ := exists_cons_of_succ_le_length t1 7 h1
  obtain ⟨a3, t3, rfl, h3⟩ := exists_cons_of_succ_le_length t2 6 h2
  obtain ⟨a4, t4, rfl, h4⟩ := exists_cons_of_succ_le_length t3 5 h3
  obtain ⟨a5, t5, rfl, h5⟩ := exists_cons_of_succ_le_length t4 4 h4
  obtain ⟨a6, t6, rfl, h6⟩ := exists_cons_of_succ_le_length t5 3 h5
  obtain ⟨a7, t7, rfl, h7⟩ := exists_cons_of_succ_le_length t6 2 h6
  obtain ⟨a8, t8, rfl, h8⟩ := exists_cons_of_succ_le_length t7 1 h7
  obtain ⟨a9, t9, rfl, h9⟩ := exists_cons_of_succ_le_length t8 0 h8
  exact ⟨a0, a1, a2, a3, a4, a5, a6, a7, a8, a9, t9, rfl⟩

theorem exists_nineteen_cons (s : List Char) (h : 19 ≤ s.length) :
    ∃ a0 a1 a2 a3 a4 a5 a6 a7 a8 a9 a10 a11 a12 a13 a14 a15 a16 a17 a18 rest,
      s = a0 :: a1 :: a2 :: a3 :: a4 :: a5 :: a6 :: a7 :: a8 :: a9 :: a10 :: a11 :: a12 :: a13 :: a14 :: a15 :: a16 :: a17 :: a18 :: rest := by
  obtain ⟨a0, a1, a2, a3, a4, a5, a6, a7, a8, a9, t9, rfl⟩ := exists_ten_cons s (by omega)
  have h9 : 9 ≤ t9.length := by simp at h; omega
  obtain ⟨a10, t10, rfl, h10⟩ := exists_cons_of_succ_le_length t9 8 h9
  obtain ⟨a11, t11, rfl, h11⟩ := exists_cons_of_succ_le_length t10 7 h10
  obtain ⟨a12, t12, rfl, h12⟩ := exists_cons_of_succ_le_length t11 6 h11
  obtain ⟨a13, t13, rfl, h13⟩ := exists_cons_of_succ_le_length t12 5 h12
  obtain ⟨a14, t14, rfl, h14⟩ := exists_cons_of_succ_le_length t13 4 h13
  obtain ⟨a15, t15, rfl, h15⟩ := exists_cons_of_succ_le_length t14 3 h14
  obtain ⟨a16, t16, rfl, h16⟩ := exists_cons_of_succ_le_length t15 2 h15
  obtain ⟨a17, t17, rfl, h17⟩ := exists_cons_of_succ_le_length t16 1 h16
  obtain ⟨a18, t18, rfl, h18⟩ := exists_cons_of_succ_le_length t17 0 h17
  exact ⟨a0, a1, a2, a3, a4, a5, a6, a7, a8, a9, a10, a11, a12, a13, a14, a15, a16, a17, a18, t18, rfl⟩

theorem dateGuard_eq (s : List Char) (b : Bool) (hb : b = true → 10 ≤ s.length) :
    andThen (some b)
      (andThen (checkNumbericASCII s 0 4) (andThen (checkDelimiter s 4 '-')
      (andThen (checkNumbericASCII s 5 2) (andThen (checkDelimiter s 7 '-')
      (checkNumbericASCII s 8 2))))) = some (b && startsWithDate s) := by
  cases b with
  | false => rfl
  | true =>
    obtain ⟨a0, a1, a2, a3, a4, a5, a6, a7, a8, a9, rest, rfl⟩ := exists_ten_cons s (hb rfl)
    rw [dateChain_eq]
    rfl

theorem dateTimeGuard_eq (s : List Char) (b : Bool) (hb : b = true → 19 ≤ s.length) :
    andThen (some b)
      (andThen (checkNumbericASCII s 0 4) (andThen (checkDelimiter s 4 '-')
      (andThen (checkNumbericASCII s 5 2) (andThen (checkDelimiter s 7 '-')
      (andThen (checkNumbericASCII s 8 2) (andThen (checkDelimiter s 10 ' ')
      (andThen (checkNumbericASCII s 11 2) (andThen (checkDelimiter s 13 ':')
      (andThen (checkNumbericASCII s 14 2) (andThen (checkDelimiter s 16 ':')
      (checkNumbericASCII s 17 2))))))))))) = some (b && startsWithDateTime s) := by
  cases b with
  | false => rfl
  | true =>
    obtain ⟨a0, a1, a2, a3, a4, a5, a6, a7, a8, a9, a10, a11, a12, a13, a14, a15, a16, a17, a18, rest, rfl⟩ :=
      exists_nineteen_cons s (hb rfl)
    rw [dateTimeChain_eq]
    rfl

theorem checkFraction_eq (buf : List Char) :
    ∀ (n i : Nat), i + n ≤ buf.length →
      checkFraction buf n i = some (((buf.drop i).take n).all isNumericASCII) := by
  intro n
  induction n with
  | zero => intro i _; simp [checkFraction]
  | succ n ih =>
    intro i h
    have hs : i < buf.length := by omega
    rw [checkFraction, List.getElem?_eq_getElem hs, List.drop_eq_getElem_cons hs]
    simp only [List.take_succ_cons, List.all_cons]
    cases hc : isNumericASCII buf[i]
    · simp
    · simp [ih (i + 1) (by omega)]

theorem startsWithDateTime_length (s : List Char) (h : startsWithDateTime s = true) :
    19 ≤ s.length := by
  by_contra hlt
  have hl : s.length < 19 := by omega
  revert h
  unfold startsWithDateTime dateTimeShape
  rcases s with _ | ⟨a0, _ | ⟨a1, _ | ⟨a2, _ | ⟨a3, _ | ⟨a4, _ | ⟨a5, _ | ⟨a6, _ | ⟨a7, _ |
    ⟨a8, _ | ⟨a9, _ | ⟨a10, _ | ⟨a11, _ | ⟨a12, _ | ⟨a13, _ | ⟨a14, _ | ⟨a15, _ | ⟨a16, _ |
    ⟨a17, _ | ⟨a18, s⟩⟩⟩⟩⟩⟩⟩⟩⟩⟩⟩⟩⟩⟩⟩⟩⟩⟩⟩ <;> simp [matchesShape] at hl ⊢
  omega

/-- Closed form of `checkDateTimeFormat` when `buf_size` is the number of bytes left in the
buffer: it always returns, and with the value of the corresponding branch. -/
theorem checkDateTimeFormat_eq (s : List Char) (cbp : Nat) :
    checkDateTimeFormat s s.length cbp = some (
      if (s.length = 10 ∨ s.length = 11) ∧ startsWithDate s = true then
        (if s.length = 10 then (true, cbp)
         else if s[10]? ≠ some ' ' then (false, 0) else (false, cbp))
      else if (s.length = 19 ∨ s.length = 20) ∧ startsWithDateTime s = true then
        (if s.length = 19 then (true, cbp) else (decide (s[19]? = some '.'), cbp))
      else if s.length < 4 ∨ (s[s.length - 1]?).map isNumericASCII = some false then (false, 0)
      else if s.length < 19 then (false, cbp)
      else if s.length > 20 then ((s.drop 20).all isNumericASCII, cbp)
      else (true, cbp)) := by
  unfold checkDateTimeFormat
  rw [dateGuard_eq s _ (by intro h; simp at h; omega),
    dateTimeGuard_eq s _ (by intro h; simp at h; omega)]
  by_cases h1 : (s.length = 10 ∨ s.length = 11) ∧ startsWithDate s = true
  · have hg : ((s.length == 10 || s.length == 11) && startsWithDate s) = true := by
      simp [h1.1, h1.2]
    rw [hg, if_pos h1]
    by_cases h10 : s.length = 10
    · simp [h10]
    · have h11 : s.length = 11 := by omega
      have hlt : 10 < s.length := by omega
      simp only [h11, List.getElem?_eq_getElem hlt]
      by_cases hc : s[10] = ' ' <;> simp [hc]
  · have hg : ((s.length == 10 || s.length == 11) && startsWithDate s) = false := by
      by_contra hne
      simp at hne
      exact h1 ⟨by simpa using hne.1, hne.2⟩
    rw [hg, if_neg h1]
    by_cases h2 : (s.length = 19 ∨ s.length = 20) ∧ startsWithDateTime s = true
    · have hg2 : ((s.length == 19 || s.length == 20) && startsWithDateTime s) = true := by
        simp [h2.1, h2.2]
      rw [hg2, if_pos h2]
      by_cases h19 : s.length = 19
      · simp [h19]
      · have h20 : s.length = 20 := by omega
        have hlt : 19 < s.length := by omega
        simp only [h20, List.getElem?_eq_getElem hlt]
        by_cases hc : s[19] = '.' <;> simp [hc]
    · have hg2 : ((s.length == 19 || s.length == 20) && startsWithDateTime s) = false := by
        by_contra hne
        simp at hne
        exact h2 ⟨by simpa using hne.1, hne.2⟩
      rw [hg2, if_neg h2]
      by_cases h4 : s.length < 4
      · simp [h4]
      · have hlast : s.length - 1 < s.length := by omega
        rw [if_neg h4, List.getElem?_eq_getElem hlast]
        cases hd : isNumericASCII s[s.length - 1]
        · simp [hd]
        · simp only [Option.map_some', hd, Bool.not_true]
          have hno : ¬ (s.length < 4 ∨ some true = some false) := by simp; omega
          rw [if_neg hno]
          by_cases h19 : s.length < 19
          · simp [h19]
          · rw [if_neg h19, if_neg h19]
            by_cases h20 : s.length > 20
            · rw [if_pos h20, if_pos h20, checkFraction_eq s _ 20 (by omega)]
              simp
              rw [List.take_of_length_le (by simp)]
            · rw [if_neg h20, if_neg h20]

/-- Branch selection in closed form: a row always selects a branch; it is the NULL branch
exactly under `nullRule`, and otherwise one of the two parsers on the unpadded bytes. -/
theorem selectAction_eq (data : List Char) :
    ∃ act, selectAction data = some act ∧
      (act = RowAction.null ↔ nullRule (skipSpaces data)) ∧
      (act = RowAction.null ∨ act = RowAction.strict (skipSpaces data) ∨
        act = RowAction.bestEffort (skipSpaces data)) ∧
      (act = RowAction.strict (skipSpaces data) ↔
        checkDateTimeFormat (skipSpaces data) (skipSpaces data).length 1 = some (true, 1)) := by
  unfold selectAction nullRule
  simp only [checkDateTimeFormat_eq]
  generalize skipSpaces data = s
  split_ifs <;> simp_all

theorem skipSpaces_of_digit (c : Char) (rest : List Char) (h : isNumericASCII c = true) :
    skipSpaces (c :: rest) = c :: rest := by
  have hc : c ≠ ' ' := by
    rintro rfl
    exact absurd h (by decide)
  simp [skipSpaces, hc]

theorem skipSpaces_of_startsWithDate (s : List Char) (h : startsWithDate s = true) :
    skipSpaces s = s := by
  cases s with
  | nil => rfl
  | cons c rest =>
    apply skipSpaces_of_digit
    simp [startsWithDate, dateShape, matchesShape] at h
    exact h.1

theorem skipSpaces_of_startsWithDateTime (s : List Char) (h : startsWithDateTime s = true) :
    skipSpaces s = s := by
  cases s with
  | nil => rfl
  | cons c rest =>
    apply skipSpaces_of_digit
    simp [startsWithDateTime, dateTimeShape, matchesShape] at h
    exact h.1

theorem checkDateTimeFormat_wellFormed (s : List Char) (cbp : Nat)
    (h : wellFormedText s = true) : checkDateTimeFormat s s.length cbp = some (true, cbp) := by
  rw [checkDateTimeFormat_eq]
  unfold wellFormedText at h
  simp only [Bool.or_eq_true, Bool.and_eq_true, beq_iff_eq] at h
  rcases h with ⟨h10, hD⟩ | ⟨hDT, hfrac⟩
  · simp [h10, hD]
  · have h19 := startsWithDateTime_length s hDT
    have hn1 : ¬ ((s.length = 10 ∨ s.length = 11) ∧ startsWithDate s = true) := by
      rintro ⟨hl, _⟩; omega
    rw [if_neg hn1]
    by_cases hl19 : s.length = 19
    · simp [hl19, hDT]
    · have hlt : 19 < s.length := by omega
      have hdrop : s.drop 19 = s[19] :: s.drop 20 := List.drop_eq_getElem_cons hlt
      rw [hdrop] at hfrac
      simp only [fractionOrEmpty, Bool.and_eq_true, beq_iff_eq] at hfrac
      obtain ⟨hdot, hdigits⟩ := hfrac
      by_cases hl20 : s.length = 20
      · simp [hl20, hDT, List.getElem?_eq_getElem hlt, hdot]
      · have hn2 : ¬ ((s.length = 19 ∨ s.length = 20) ∧ startsWithDateTime s = true) := by
          rintro ⟨hl, _⟩; omega
        have hlast : s.length - 1 < s.length := by omega
        have hmem : s[s.length - 1] ∈ s.drop 20 := by
          rw [List.mem_iff_getElem?]
          refine ⟨s.length - 1 - 20, ?_⟩
          rw [List.getElem?_drop, show 20 + (s.length - 1 - 20) = s.length - 1 by omega,
            List.getElem?_eq_getElem hlast]
        have hdig : isNumericASCII s[s.length - 1] = true := List.all_eq_true.1 hdigits _ hmem
        have hn3 : ¬ (s.length < 4 ∨
            (s[s.length - 1]?).map isNumericASCII = some false) := by
          rw [List.getElem?_eq_getElem hlast]
          simp [hdig]
          omega
        rw [if_neg hn2, if_neg hn3, if_neg (by omega), if_pos (by omega), hdigits]

/-- C7: evaluation of `checkDateTimeFormat` on two malformed texts.  The 19 bytes
`aaaaaaaaaaaaaaaaaa1` and the 22 bytes `not a date-time at  07` are no well-formed date/time
text, yet the function returns true for both (and the row goes to the strict parser). -/
theorem checkDateTimeFormat_accepts_malformed :
    checkDateTimeFormat malformed19 malformed19.length 1 = some (true, 1) ∧
    wellFormedText malformed19 = false ∧
    selectAction malformed19 = some (RowAction.strict malformed19) ∧
    checkDateTimeFormat malformed22 malformed22.length 1 = some (true, 1) ∧
    wellFormedText malformed22 = false ∧
    selectAction malformed22 = some (RowAction.strict malformed22) := by
  decide

/-- The embedding does fault on a read past the end: with a one-byte buffer and
`buf_size = 10` the date test reads offset 1 and the result is `none`. -/
theorem checkDateTimeFormat_faults_past_end : checkDateTimeFormat ['2'] 10 1 = none := by
  decide

/-- C11: `checkDateTimeFormat` never reads outside the buffer.  For every buffer whose
remaining length equals `buf_size`, every read is at an offset below `buf_size`: the call
returns without an out-of-range access, whatever `can_be_parsed` is; with `buf_size = 0` it
reads nothing and returns false with `can_be_parsed = 0`. -/
theorem checkDateTimeFormat_reads_in_bounds (buf : List Char) (buf_size can_be_parsed : Nat)
    (h : buf.length = buf_size) :
    (∃ r, checkDateTimeFormat buf buf_size can_be_parsed = some r) ∧
    (buf_size = 0 → checkDateTimeFormat buf buf_size can_be_parsed = some (false, 0)) := by
  subst h
  refine ⟨⟨_, checkDateTimeFormat_eq buf can_be_parsed⟩, ?_⟩
  intro h0
  have hnil : buf = [] := List.length_eq_zero.1 h0
  subst hnil
  rfl

/-- C11 on the 22 bytes `not a date-time at  07` with `buf_size = 22`. -/
theorem checkDateTimeFormat_reads_in_bounds_witness :
    malformed22.length = 22 ∧
    (∃ r, checkDateTimeFormat malformed22 22 1 = some r) ∧
    (22 = 0 → checkDateTimeFormat malformed22 22 1 = some (false, 0)) :=
  ⟨by decide, checkDateTimeFormat_reads_in_bounds malformed22 22 1 (by decide)⟩

theorem skipSpaces_replicate_append (k : Nat) (s : List Char) :
    skipSpaces (List.replicate k ' ' ++ s) = skipSpaces s := by
  induction k with
  | zero => rfl
  | succ k ih => simp [List.replicate_succ, skipSpaces, ih]

theorem skipSpaces_suffix (s : List Char) :
    ∃ j, s = List.replicate j ' ' ++ skipSpaces s := by
  induction s with
  | nil => exact ⟨0, rfl⟩
  | cons c rest ih =>
    by_cases hc : c = ' '
    · obtain ⟨j, hj⟩ := ih
      refine ⟨j + 1, ?_⟩
      subst hc
      simp only [skipSpaces, if_true, List.replicate_succ, List.cons_append]
      rw [← hj]
    · exact ⟨0, by simp [skipSpaces, hc]⟩

theorem skipSpaces_head (s : List Char) : (skipSpaces s).head? ≠ some ' ' := by
  induction s with
  | nil => simp [skipSpaces]
  | cons c rest ih =>
    by_cases hc : c = ' '
    · simpa [skipSpaces, hc] using ih
    · simp [skipSpaces, hc]

/-- The loop of `executeInternal` never faults on arrays that are long enough, and ends in
one of two ways: every row was written, or the parser of some row threw and the rows before
it had parsed. -/
theorem executeRows_spec (P : Parsers) (src : List (List Char)) (scale : Nat) :
    ∀ (n i : Nat) (d : List Int) (nm : List Nat),
      i + n ≤ src.length → i + n ≤ d.length → i + n ≤ nm.length →
      (∃ d2 m2, executeRows P src scale n i d nm = some (Except.ok (d2, m2)) ∧
        d2.length = d.length ∧ m2.length = nm.length ∧
        (∀ j data, i ≤ j → j < i + n → src[j]? = some data →
          ∃ act out, selectAction data = some act ∧ rowOutput P scale act = Except.ok out ∧
            d2[j]? = some out.1 ∧ m2[j]? = some out.2) ∧
        (∀ j, j < i → d2[j]? = d[j]? ∧ m2[j]? = nm[j]?)) ∨
      (∃ t data act e, t < n ∧ src[i + t]? = some data ∧ selectAction data = some act ∧
        rowOutput P scale act = Except.error e ∧
        (∀ j data2, i ≤ j → j < i + t → src[j]? = some data2 →
          ∃ act2 out, selectAction data2 = some act2 ∧
            rowOutput P scale act2 = Except.ok out) ∧
        executeRows P src scale n i d nm = some (Except.error e)) := by
  intro n
  induction n with
  | zero =>
    intro i d nm _ _ _
    exact Or.inl ⟨d, nm, rfl, rfl, rfl, fun j _ h1 h2 => by omega, fun _ _ => ⟨rfl, rfl⟩⟩
  | succ n ih =>
    intro i d nm hs hd hn
    have his : i < src.length := by omega
    have hid : i < d.length := by omega
    have hin : i < nm.length := by omega
    obtain ⟨act, hact, _⟩ := selectAction_eq src[i]
    cases hro : rowOutput P scale act with
    | error e =>
      refine Or.inr ⟨0, src[i], act, e, by omega, List.getElem?_eq_getElem his, hact, hro,
        fun j _ h1 h2 => by omega, ?_⟩
      simp only [executeRows, List.getElem?_eq_getElem his, hact, if_pos hid, hro]
    | ok out =>
      have hstep : executeRows P src scale (n + 1) i d nm =
          executeRows P src scale n (i + 1) (d.set i out.1) (nm.set i out.2) := by
        simp only [executeRows, List.getElem?_eq_getElem his, hact, if_pos hid, hro,
          if_pos hin]
      rcases ih (i + 1) (d.set i out.1) (nm.set i out.2) (by omega) (by simp; omega)
        (by simp; omega) with ⟨d2, m2, e1, e2, e3, e4, e5⟩ | ⟨t, data, act2, e, ht, hsrc, hsel,
          herr, hbefore, hres⟩
      · refine Or.inl ⟨d2, m2, by rw [hstep, e1], by simpa using e2, by simpa using e3, ?_, ?_⟩
        · intro j data hj1 hj2 hdata
          by_cases hji : j = i
          · subst hji
            rw [List.getElem?_eq_getElem his] at hdata
            have hdata2 : src[j] = data := Option.some.inj hdata
            subst hdata2
            obtain ⟨f1, f2⟩ := e5 j (by omega)
            refine ⟨act, out, hact, hro, ?_, ?_⟩
            · rw [f1]; simp [List.getElem?_set]; omega
            · rw [f2]; simp [List.getElem?_set]; omega
          · exact e4 j data (by omega) (by omega) hdata
        · intro j hj
          obtain ⟨f1, f2⟩ := e5 j (by omega)
          refine ⟨?_, ?_⟩
          · rw [f1]; simp [List.getElem?_set]; omega
          · rw [f2]; simp [List.getElem?_set]; omega
      · refine Or.inr ⟨t + 1, data, act2, e, by omega, ?_, hsel, herr, ?_, by rw [hstep, hres]⟩
        · rw [show i + (t + 1) = i + 1 + t by omega]; exact hsrc
        · intro j data2 hj1 hj2 hdata
          by_cases hji : j = i
          · subst hji
            rw [List.getElem?_eq_getElem his] at hdata
            have hdata2 : src[j] = data2 := Option.some.inj hdata
            subst hdata2
            exact ⟨act, out, hact, hro⟩
          · exact hbefore j data2 (by omega) (by omega) hdata

/-- When `executeInternal` returns, every row was written with the output of its branch. -/
theorem executeInternal_ok_rows (P : Parsers) (src : List (List Char)) (scale : Nat)
    (dst_data : List Int) (null_map_data : List Nat) (hd : dst_data.length = src.length)
    (hn : null_map_data.length = src.length) (d : List Int) (m : List Nat)
    (hres : executeInternal P src scale dst_data null_map_data = some (Except.ok (d, m))) :
    d.length = src.length ∧ m.length = src.length ∧
    ∀ (i : Nat) (data : List Char), src[i]? = some data →
      ∃ act out, selectAction data = some act ∧ rowOutput P scale act = Except.ok out ∧
        d[i]? = some out.1 ∧ m[i]? = some out.2 := by
  unfold executeInternal at hres
  rcases executeRows_spec P src scale src.length 0 dst_data null_map_data (by omega)
    (by omega) (by omega) with ⟨d2, m2, e1, e2, e3, e4, _⟩ | ⟨t, data, act, e, _, _, _, _, _, h⟩
  · rw [e1] at hres
    have hpair : (d2, m2) = (d, m) := Except.ok.inj (Option.some.inj hres)
    have hd2 : d2 = d := congrArg Prod.fst hpair
    have hm2 : m2 = m := congrArg Prod.snd hpair
    subst hd2
    subst hm2
    refine ⟨by omega, by omega, ?_⟩
    intro i data hi
    have hlt : i < src.length := (List.getElem?_eq_some.1 hi).1
    exact e4 i data (Nat.zero_le _) (by omega) hi
  · rw [h] at hres
    cases hres

/-- When no parser throws on a row of the column, `executeInternal` returns. -/
theorem executeInternal_of_parsesAll (P : Parsers) (src : List (List Char)) (scale : Nat)
    (dst_data : List Int) (null_map_data : List Nat) (hd : dst_data.length = src.length)
    (hn : null_map_data.length = src.length) (hp : parsesAll P scale src) :
    ∃ (d : List Int) (m : List Nat),
      executeInternal P src scale dst_data null_map_data = some (Except.ok (d, m)) := by
  rcases executeRows_spec P src scale src.length 0 dst_data null_map_data (by omega)
    (by omega) (by omega) with ⟨d2, m2, e1, _⟩ | ⟨t, data, act, e, _, hsrc, hsel, herr, _, _⟩
  · exact ⟨d2, m2, e1⟩
  · obtain ⟨out, hout⟩ := hp data (List.getElem?_mem hsrc) act hsel
    rw [hout] at herr
    cases herr

/-- The first row whose parser throws decides the exception with which `executeInternal`
leaves. -/
theorem executeInternal_first_throw (P : Parsers) (src : List (List Char)) (scale : Nat)
    (dst_data : List Int) (null_map_data : List Nat) (hd : dst_data.length = src.length)
    (hn : null_map_data.length = src.length) (t : Nat) (data : List Char) (act : RowAction)
    (e : Thrown) (hsrc : src[t]? = some data) (hsel : selectAction data = some act)
    (herr : rowOutput P scale act = Except.error e)
    (hbefore : ∀ (j : Nat) (data2 : List Char), j < t → src[j]? = some data2 →
      ∀ act2, selectAction data2 = some act2 → ∃ out, rowOutput P scale act2 = Except.ok out) :
    executeInternal P src scale dst_data null_map_data = some (Except.error e) := by
  rcases executeRows_spec P src scale src.length 0 dst_data null_map_data (by omega)
    (by omega) (by omega) with ⟨d2, m2, _, _, _, e4, _⟩ | ⟨t2, data2, act2, e2, _, hsrc2, hsel2,
      herr2, hb2, h⟩
  · have hlt : t < src.length := (List.getElem?_eq_some.1 hsrc).1
    obtain ⟨a, out, ha, hout, _⟩ := e4 t data (Nat.zero_le _) (by omega) hsrc
    rw [hsel] at ha
    have : act = a := Option.some.inj ha
    subst this
    rw [hout] at herr
    cases herr
  · rw [Nat.zero_add] at hsrc2
    have htt : t2 = t := by
      rcases Nat.lt_trichotomy t2 t with hlt | heq | hgt
      · obtain ⟨out, hout⟩ := hbefore t2 data2 hlt hsrc2 act2 hsel2
        rw [hout] at herr2
        cases herr2
      · exact heq
      · obtain ⟨a, out, ha, hout⟩ := hb2 t data (Nat.zero_le _) (by omega) hsrc
        rw [hsel] at ha
        have : act = a := Option.some.inj ha
        subst this
        rw [hout] at herr
        cases herr
    subst htt
    rw [hsrc] at hsrc2
    have hdd : data = data2 := Option.some.inj hsrc2
    subst hdd
    rw [hsel] at hsel2
    have haa : act = act2 := Option.some.inj hsel2
    subst haa
    rw [herr] at herr2
    have hee : e = e2 := Except.error.inj herr2
    subst hee
    exact h

/-- C8: `checkDateTimeFormat` accepts every canonical form.  For a buffer that is a
10-character `dddd-dd-dd` date, a 19-character `dddd-dd-dd dd:dd:dd` date-time, or that
date-time followed by `.` and zero or more digits, it returns true and leaves `can_be_parsed`
unchanged; the row takes the branch of the strict parser `readDateTime64Text` on the whole
text: whenever `executeInternal` returns (as it does when no parser throws) the row holds
that parser's value with null flag 0, and when that parser throws on the row and the rows
before it parsed, `executeInternal` leaves with that exception. -/
theorem checkDateTimeFormat_accepts_canonical (P : Parsers) (s : List Char)
    (can_be_parsed scale : Nat) (src : List (List Char)) (dst_data : List Int)
    (null_map_data : List Nat) (i : Nat) (h : wellFormedText s = true)
    (hi : src[i]? = some s) (hd : dst_data.length = src.length)
    (hn : null_map_data.length = src.length) :
    checkDateTimeFormat s s.length can_be_parsed = some (true, can_be_parsed) ∧
    selectAction s = some (RowAction.strict s) ∧
    (parsesAll P scale src → ∃ (d : List Int) (m : List Nat) (v : Int),
      executeInternal P src scale dst_data null_map_data = some (Except.ok (d, m)) ∧
      P.readDateTime64Text scale s = Except.ok v ∧ d[i]? = some v ∧ m[i]? = some 0) ∧
    (∀ (d : List Int) (m : List Nat),
      executeInternal P src scale dst_data null_map_data = some (Except.ok (d, m)) →
      ∃ v, P.readDateTime64Text scale s = Except.ok v ∧ d[i]? = some v ∧ m[i]? = some 0) ∧
    (∀ c, P.readDateTime64Text scale s = Except.error c →
      (∀ (j : Nat) (data2 : List Char), j < i → src[j]? = some data2 →
        ∀ act2, selectAction data2 = some act2 →
          ∃ out, rowOutput P scale act2 = Except.ok out) →
      executeInternal P src scale dst_data null_map_data =
        some (Except.error (Thrown.parser c))) := by
  have hskip : skipSpaces s = s := by
    have h2 := h
    unfold wellFormedText at h2
    simp only [Bool.or_eq_true, Bool.and_eq_true, beq_iff_eq] at h2
    rcases h2 with ⟨_, hD⟩ | ⟨hDT, _⟩
    · exact skipSpaces_of_startsWithDate s hD
    · exact skipSpaces_of_startsWithDateTime s hDT
  have hsel : selectAction s = some (RowAction.strict s) := by
    obtain ⟨act, hact, _, _, hstrict⟩ := selectAction_eq s
    rw [hskip] at hstrict
    rw [hact, hstrict.2 (checkDateTimeFormat_wellFormed s 1 h)]
  have hok : ∀ (d : List Int) (m : List Nat),
      executeInternal P src scale dst_data null_map_data = some (Except.ok (d, m)) →
      ∃ v, P.readDateTime64Text scale s = Except.ok v ∧ d[i]? = some v ∧ m[i]? = some 0 := by
    intro d m hres
    obtain ⟨_, _, hrows⟩ :=
      executeInternal_ok_rows P src scale dst_data null_map_data hd hn d m hres
    obtain ⟨act, out, hact, hout, hdv, hmv⟩ := hrows i s hi
    rw [hsel] at hact
    have ha : RowAction.strict s = act := Option.some.inj hact
    subst ha
    cases hp : P.readDateTime64Text scale s with
    | error c => simp [rowOutput, hp] at hout
    | ok v =>
      simp only [rowOutput, hp] at hout
      have ho : (v, 0) = out := Except.ok.inj hout
      subst ho
      exact ⟨v, rfl, hdv, hmv⟩
  refine ⟨checkDateTimeFormat_wellFormed s can_be_parsed h, hsel, ?_, hok, ?_⟩
  · intro hp
    obtain ⟨d, m, hres⟩ :=
      executeInternal_of_parsesAll P src scale dst_data null_map_data hd hn hp
    obtain ⟨v, hv, hdv, hmv⟩ := hok d m hres
    exact ⟨d, m, v, hres, hv, hdv, hmv⟩
  · intro c hc hbefore
    apply executeInternal_first_throw P src scale dst_data null_map_data hd hn i s
      (RowAction.strict s) (Thrown.parser c) hi hsel _ hbefore
    simp only [rowOutput, hc]

/-- C8 on the text `2023-05-17 08:30:00.25` as the only row of a column. -/
theorem checkDateTimeFormat_accepts_canonical_witness :
    wellFormedText canonicalExample = true ∧
    [canonicalExample][0]? = some canonicalExample ∧
    ([0] : List Int).length = [canonicalExample].length ∧
    ([0] : List Nat).length = [canonicalExample].length ∧
    parsesAll exampleParsers 6 [canonicalExample] ∧
    checkDateTimeFormat canonicalExample canonicalExample.length 1 = some (true, 1) ∧
    selectAction canonicalExample = some (RowAction.strict canonicalExample) ∧
    (parsesAll exampleParsers 6 [canonicalExample] →
      ∃ (d : List Int) (m : List Nat) (v : Int),
      executeInternal exampleParsers [canonicalExample] 6 [0] [0] = some (Except.ok (d, m)) ∧
      exampleParsers.readDateTime64Text 6 canonicalExample = Except.ok v ∧
      d[0]? = some v ∧ m[0]? = some 0) ∧
    (∀ (d : List Int) (m : List Nat),
      executeInternal exampleParsers [canonicalExample] 6 [0] [0] = some (Except.ok (d, m)) →
      ∃ v, exampleParsers.readDateTime64Text 6 canonicalExample = Except.ok v ∧
        d[0]? = some v ∧ m[0]? = some 0) ∧
    (∀ c, exampleParsers.readDateTime64Text 6 canonicalExample = Except.error c →
      (∀ (j : Nat) (data2 : List Char), j < 0 → [canonicalExample][j]? = some data2 →
        ∀ act2, selectAction data2 = some act2 →
          ∃ out, rowOutput exampleParsers 6 act2 = Except.ok out) →
      executeInternal exampleParsers [canonicalExample] 6 [0] [0] =
        some (Except.error (Thrown.parser c))) :=
  ⟨by decide, by decide, by decide, by decide,
    fun data _ act _ => by cases act <;> exact ⟨_, rfl⟩,
    checkDateTimeFormat_accepts_canonical exampleParsers canonicalExample 1 6
      [canonicalExample] [0] [0] 0 (by decide) (by decide) (by decide) (by decide)⟩

theorem executeRows_congr (P : Parsers) (src1 src2 : List (List Char)) (scale : Nat)
    (h : ∀ j : Nat, (src1[j]?).map selectAction = (src2[j]?).map selectAction) :
    ∀ (n i : Nat) (d : List Int) (nm : List Nat),
      executeRows P src1 scale n i d nm = executeRows P src2 scale n i d nm := by
  intro n
  induction n with
  | zero => intro i d nm; rfl
  | succ n ih =>
    intro i d nm
    have hi := h i
    cases h1 : src1[i]? with
    | none =>
      cases h2 : src2[i]? with
      | none => simp [executeRows, h1, h2]
      | some b => rw [h1, h2] at hi; simp at hi
    | some a =>
      cases h2 : src2[i]? with
      | none => rw [h1, h2] at hi; simp at hi
      | some b =>
        rw [h1, h2] at hi
        have hab : selectAction a = selectAction b := by simpa using hi
        simp only [executeRows, h1, h2, hab]
        cases selectAction b with
        | none => rfl
        | some act =>
          simp only []
          split
          · cases rowOutput P scale act with
            | error e => rfl
            | ok out =>
              simp only []
              split
              · exact ih _ _ _
              · rfl
          · rfl

/-- C12: leading spaces do not change the result of `sparkToDateTime`.  For every byte string
`s` and every `k`, a row of `k` spaces followed by `s` selects the same branch as the row `s`
(strict parser, best-effort parser or NULL) and a selected parser is handed the same
remaining bytes; two columns that differ only in that row have the same outcome of
`executeInternal`, the same stored values and null flags or the same exception; and whenever
`executeInternal` returns for two columns holding the two rows at one index (as it does when
no parser throws) it stores the same value and null flag for both rows.  The bytes handed on
are `s` without a run of leading `' '` only: nothing is removed at the end, and a first byte
other than `' '` is kept. -/
theorem executeInternal_leading_spaces (P : Parsers) (s : List Char) (k scale : Nat)
    (src1 src2 : List (List Char)) (dst1 dst2 : List Int) (nm1 nm2 : List Nat) (i : Nat)
    (h1 : src1[i]? = some (List.replicate k ' ' ++ s)) (h2 : src2[i]? = some s)
    (hd1 : dst1.length = src1.length) (hn1 : nm1.length = src1.length)
    (hd2 : dst2.length = src2.length) (hn2 : nm2.length = src2.length) :
    selectAction (List.replicate k ' ' ++ s) = selectAction s ∧
    (∃ j, s = List.replicate j ' ' ++ skipSpaces s) ∧
    (skipSpaces s).head? ≠ some ' ' ∧
    (∀ c rest, c ≠ ' ' → skipSpaces (c :: rest) = c :: rest) ∧
    (src1.length = src2.length → (∀ j : Nat, j ≠ i → src1[j]? = src2[j]?) →
      executeInternal P src1 scale dst1 nm1 = executeInternal P src2 scale dst1 nm1) ∧
    ∃ (act : RowAction), selectAction s = some act ∧
      (act = RowAction.null ∨ act = RowAction.strict (skipSpaces s) ∨
        act = RowAction.bestEffort (skipSpaces s)) ∧
      (∀ (d1 : List Int) (m1 : List Nat) (d2 : List Int) (m2 : List Nat),
        executeInternal P src1 scale dst1 nm1 = some (Except.ok (d1, m1)) →
        executeInternal P src2 scale dst2 nm2 = some (Except.ok (d2, m2)) →
        ∃ out, rowOutput P scale act = Except.ok out ∧
          d1[i]? = some out.1 ∧ m1[i]? = some out.2 ∧
          d2[i]? = some out.1 ∧ m2[i]? = some out.2) ∧
      (parsesAll P scale src1 → parsesAll P scale src2 →
        ∃ (d1 : List Int) (m1 : List Nat) (d2 : List Int) (m2 : List Nat) (out : Int × Nat),
          rowOutput P scale act = Except.ok out ∧
          executeInternal P src1 scale dst1 nm1 = some (Except.ok (d1, m1)) ∧
          executeInternal P src2 scale dst2 nm2 = some (Except.ok (d2, m2)) ∧
          d1[i]? = some out.1 ∧ m1[i]? = some out.2 ∧
          d2[i]? = some out.1 ∧ m2[i]? = some out.2) := by
  have hsel : selectAction (List.replicate k ' ' ++ s) = selectAction s := by
    unfold selectAction
    rw [skipSpaces_replicate_append]
  refine ⟨hsel, skipSpaces_suffix s, skipSpaces_head s, ?_, ?_, ?_⟩
  · intro c rest hc
    simp [skipSpaces, hc]
  · intro hlen hother
    unfold executeInternal
    rw [hlen]
    apply executeRows_congr
    intro j
    by_cases hji : j = i
    · subst hji
      rw [h1, h2]
      simp [hsel]
    · rw [hother j hji]
  · obtain ⟨act, hact, _, hcases, _⟩ := selectAction_eq s
    have hboth : ∀ (d1 : List Int) (m1 : List Nat) (d2 : List Int) (m2 : List Nat),
        executeInternal P src1 scale dst1 nm1 = some (Except.ok (d1, m1)) →
        executeInternal P src2 scale dst2 nm2 = some (Except.ok (d2, m2)) →
        ∃ out, rowOutput P scale act = Except.ok out ∧
          d1[i]? = some out.1 ∧ m1[i]? = some out.2 ∧
          d2[i]? = some out.1 ∧ m2[i]? = some out.2 := by
      intro d1 m1 d2 m2 e1 e2
      obtain ⟨_, _, r1⟩ := executeInternal_ok_rows P src1 scale dst1 nm1 hd1 hn1 d1 m1 e1
      obtain ⟨_, _, r2⟩ := executeInternal_ok_rows P src2 scale dst2 nm2 hd2 hn2 d2 m2 e2
      obtain ⟨a1, o1, ha1, ho1, hv1, hw1⟩ := r1 i _ h1
      obtain ⟨a2, o2, ha2, ho2, hv2, hw2⟩ := r2 i _ h2
      rw [hsel, hact] at ha1
      rw [hact] at ha2
      have q1 : act = a1 := Option.some.inj ha1
      have q2 : act = a2 := Option.some.inj ha2
      subst q1
      subst q2
      rw [ho1] at ho2
      have q3 : o1 = o2 := Except.ok.inj ho2
      subst q3
      exact ⟨o1, ho1, hv1, hw1, hv2, hw2⟩
    refine ⟨act, hact, hcases, hboth, ?_⟩
    intro hp1 hp2
    obtain ⟨d1, m1, e1⟩ := executeInternal_of_parsesAll P src1 scale dst1 nm1 hd1 hn1 hp1
    obtain ⟨d2, m2, e2⟩ := executeInternal_of_parsesAll P src2 scale dst2 nm2 hd2 hn2 hp2
    obtain ⟨out, ho, a, b, c, d⟩ := hboth d1 m1 d2 m2 e1 e2
    exact ⟨d1, m1, d2, m2, out, ho, e1, e2, a, b, c, d⟩

/-- C12 on the row `2023-05-17 08:30:00.25` with and without three leading spaces. -/
theorem executeInternal_leading_spaces_witness :
    [List.replicate 3 ' ' ++ canonicalExample][0]? =
      some (List.replicate 3 ' ' ++ canonicalExample) ∧
    [canonicalExample][0]? = some canonicalExample ∧
    ([0] : List Int).length = [List.replicate 3 ' ' ++ canonicalExample].length ∧
    ([0] : List Nat).length = [List.replicate 3 ' ' ++ canonicalExample].length ∧
    ([0] : List Int).length = [canonicalExample].length ∧
    ([0] : List Nat).length = [canonicalExample].length ∧
    selectAction (List.replicate 3 ' ' ++ canonicalExample) = selectAction canonicalExample ∧
    (∃ j, canonicalExample = List.replicate j ' ' ++ skipSpaces canonicalExample) ∧
    (skipSpaces canonicalExample).head? ≠ some ' ' ∧
    (∀ c rest, c ≠ ' ' → skipSpaces (c :: rest) = c :: rest) ∧
    ([List.replicate 3 ' ' ++ canonicalExample].length = [canonicalExample].length → (∀ j : Nat, j ≠ 0 → [List.replicate 3 ' ' ++ canonicalExample][j]? = [canonicalExample][j]?) →
      executeInternal exampleParsers [List.replicate 3 ' ' ++ canonicalExample] 6 [0] [0] = executeInternal exampleParsers [canonicalExample] 6 [0] [0]) ∧
    ∃ (act : RowAction), selectAction canonicalExample = some act ∧
      (act = RowAction.null ∨ act = RowAction.strict (skipSpaces canonicalExample) ∨
        act = RowAction.bestEffort (skipSpaces canonicalExample)) ∧
      (∀ (d1 : List Int) (m1 : List Nat) (d2 : List Int) (m2 : List Nat),
        executeInternal exampleParsers [List.replicate 3 ' ' ++ canonicalExample] 6 [0] [0] = some (Except.ok (d1, m1)) →
        executeInternal exampleParsers [canonicalExample] 6 [0] [0] = some (Except.ok (d2, m2)) →
        ∃ out, rowOutput exampleParsers 6 act = Except.ok out ∧
          d1[0]? = some out.1 ∧ m1[0]? = some out.2 ∧
          d2[0]? = some out.1 ∧ m2[0]? = some out.2) ∧
      (parsesAll exampleParsers 6 [List.replicate 3 ' ' ++ canonicalExample] → parsesAll exampleParsers 6 [canonicalExample] →
        ∃ (d1 : List Int) (m1 : List Nat) (d2 : List Int) (m2 : List Nat) (out : Int × Nat),
          rowOutput exampleParsers 6 act = Except.ok out ∧
          executeInternal exampleParsers [List.replicate 3 ' ' ++ canonicalExample] 6 [0] [0] = some (Except.ok (d1, m1)) ∧
          executeInternal exampleParsers [canonicalExample] 6 [0] [0] = some (Except.ok (d2, m2)) ∧
          d1[0]? = some out.1 ∧ m1[0]? = some out.2 ∧
          d2[0]? = some out.1 ∧ m2[0]? = some out.2) :=
  ⟨by decide, by decide, by decide, by decide, by decide, by decide,
    executeInternal_leading_spaces exampleParsers canonicalExample 3 6
      [List.replicate 3 ' ' ++ canonicalExample] [canonicalExample] [0] [0] [0] [0] 0
      (by decide) (by decide) (by decide) (by decide) (by decide) (by decide)⟩

end gluten
